import Mathlib

/-!
# tukan::future::Spectrum and LinearInterpolator, and gaudy::RGB

A shallow embedding of `include/tukan/future/Spectrum.hh` and of the arithmetic operators of
`include/gaudy/RGB.hh`.

Numeric model (exact arithmetic): `float` values and `Nanometer` magnitudes are rationals,
`int` is an unbounded integer, `size_t` is a natural number below `2^64` whose subtraction
wraps modulo `2^64`.  Rounding, NaN and infinities are outside the model; a division by zero
yields `0` as in `ℚ`.

Machine arithmetic (`namespace ieee754`): the point query and the interval query once more,
with every `float` operation rounded to binary32 and every `double` operation to binary64.
It is used where rounding changes the path the source takes: the `int` computed from
`r.max * (size()-1)` or `f * (size()-1)` can be one more than the exact product allows.

Failure model: every `throw` site of the source is a constructor of `Error`.  The unchecked
`operator[]` of `std::valarray` and the unguarded dereference of an empty `optional` have
undefined behaviour in the source; the embedding reports them as `Error.undefined_behaviour`
so that a result `Except.ok s` means: the source returns `s` without leaving defined behaviour.
-/

namespace gaudy

/-- `struct RGB` of `include/gaudy/RGB.hh`: three `float` components, each `0` by default;
the structure constructor is `RGB(float r, float g, float b)`. -/
structure RGB where
  r : ℚ := 0
  g : ℚ := 0
  b : ℚ := 0
  deriving DecidableEq, Repr

namespace RGB

/-- `RGB& RGB::operator+= (RGB rhs)`: the three statements `r += rhs.r; g += rhs.g;
b += rhs.b;` in order; the result is `*this` after the call (`rhs` is passed by value). -/
def operator_add_assign_RGB (lhs rhs : RGB) : RGB :=
  let lhs : RGB := { lhs with r := lhs.r + rhs.r }
  let lhs : RGB := { lhs with g := lhs.g + rhs.g }
  let lhs : RGB := { lhs with b := lhs.b + rhs.b }
  lhs

/-- `RGB& RGB::operator-= (RGB rhs)`: the three statements `r -= rhs.r; g -= rhs.g;
b -= rhs.b;` in order; the result is `*this` after the call (`rhs` is passed by value). -/
def operator_sub_assign_RGB (lhs rhs : RGB) : RGB :=
  let lhs : RGB := { lhs with r := lhs.r - rhs.r }
  let lhs : RGB := { lhs with g := lhs.g - rhs.g }
  let lhs : RGB := { lhs with b := lhs.b - rhs.b }
  lhs

/-- `RGB& RGB::operator*= (RGB rhs)`: the three statements `r *= rhs.r; g *= rhs.g;
b *= rhs.b;` in order; the result is `*this` after the call (`rhs` is passed by value). -/
def operator_mul_assign_RGB (lhs rhs : RGB) : RGB :=
  let lhs : RGB := { lhs with r := lhs.r * rhs.r }
  let lhs : RGB := { lhs with g := lhs.g * rhs.g }
  let lhs : RGB := { lhs with b := lhs.b * rhs.b }
  lhs

/-- `RGB& RGB::operator/= (RGB rhs)`: the three statements `r /= rhs.r; g /= rhs.g;
b /= rhs.b;` in order; the result is `*this` after the call (`rhs` is passed by value). -/
def operator_div_assign_RGB (lhs rhs : RGB) : RGB :=
  let lhs : RGB := { lhs with r := lhs.r / rhs.r }
  let lhs : RGB := { lhs with g := lhs.g / rhs.g }
  let lhs : RGB := { lhs with b := lhs.b / rhs.b }
  lhs

/-- `RGB& RGB::operator+= (float rhs)`: the three statements `r += rhs; g += rhs;
b += rhs;` in order; the result is `*this` after the call. -/
def operator_add_assign_float (lhs : RGB) (rhs : ℚ) : RGB :=
  let lhs : RGB := { lhs with r := lhs.r + rhs }
  let lhs : RGB := { lhs with g := lhs.g + rhs }
  let lhs : RGB := { lhs with b := lhs.b + rhs }
  lhs

/-- `RGB& RGB::operator-= (float rhs)`: the three statements `r -= rhs; g -= rhs;
b -= rhs;` in order; the result is `*this` after the call. -/
def operator_sub_assign_float (lhs : RGB) (rhs : ℚ) : RGB :=
  let lhs : RGB := { lhs with r := lhs.r - rhs }
  let lhs : RGB := { lhs with g := lhs.g - rhs }
  let lhs : RGB := { lhs with b := lhs.b - rhs }
  lhs

/-- `RGB& RGB::operator*= (float rhs)`: the three statements `r *= rhs; g *= rhs;
b *= rhs;` in order; the result is `*this` after the call. -/
def operator_mul_assign_float (lhs : RGB) (rhs : ℚ) : RGB :=
  let lhs : RGB := { lhs with r := lhs.r * rhs }
  let lhs : RGB := { lhs with g := lhs.g * rhs }
  let lhs : RGB := { lhs with b := lhs.b * rhs }
  lhs

/-- `RGB& RGB::operator/= (float rhs)`: the three statements `r /= rhs; g /= rhs;
b /= rhs;` in order; the result is `*this` after the call. -/
def operator_div_assign_float (lhs : RGB) (rhs : ℚ) : RGB :=
  let lhs : RGB := { lhs with r := lhs.r / rhs }
  let lhs : RGB := { lhs with g := lhs.g / rhs }
  let lhs : RGB := { lhs with b := lhs.b / rhs }
  lhs

end RGB

/-- `constexpr RGB operator+ (RGB lhs, RGB rhs)`. -/
def operator_add_RGB_RGB (lhs rhs : RGB) : RGB :=
  ⟨lhs.r + rhs.r, lhs.g + rhs.g, lhs.b + rhs.b⟩

/-- `constexpr RGB operator- (RGB lhs, RGB rhs)`. -/
def operator_sub_RGB_RGB (lhs rhs : RGB) : RGB :=
  ⟨lhs.r - rhs.r, lhs.g - rhs.g, lhs.b - rhs.b⟩

/-- `constexpr RGB operator* (RGB lhs, RGB rhs)`. -/
def operator_mul_RGB_RGB (lhs rhs : RGB) : RGB :=
  ⟨lhs.r * rhs.r, lhs.g * rhs.g, lhs.b * rhs.b⟩

/-- `constexpr RGB operator/ (RGB lhs, RGB rhs)`. -/
def operator_div_RGB_RGB (lhs rhs : RGB) : RGB :=
  ⟨lhs.r / rhs.r, lhs.g / rhs.g, lhs.b / rhs.b⟩

/-- `constexpr RGB operator+ (RGB lhs, float rhs)`. -/
def operator_add_RGB_float (lhs : RGB) (rhs : ℚ) : RGB :=
  ⟨lhs.r + rhs, lhs.g + rhs, lhs.b + rhs⟩

/-- `constexpr RGB operator- (RGB lhs, float rhs)`. -/
def operator_sub_RGB_float (lhs : RGB) (rhs : ℚ) : RGB :=
  ⟨lhs.r - rhs, lhs.g - rhs, lhs.b - rhs⟩

/-- `constexpr RGB operator* (RGB lhs, float rhs)`. -/
def operator_mul_RGB_float (lhs : RGB) (rhs : ℚ) : RGB :=
  ⟨lhs.r * rhs, lhs.g * rhs, lhs.b * rhs⟩

/-- `constexpr RGB operator/ (RGB lhs, float rhs)`. -/
def operator_div_RGB_float (lhs : RGB) (rhs : ℚ) : RGB :=
  ⟨lhs.r / rhs, lhs.g / rhs, lhs.b / rhs⟩

/-- `constexpr RGB operator+ (float lhs, RGB rhs)`. -/
def operator_add_float_RGB (lhs : ℚ) (rhs : RGB) : RGB :=
  ⟨lhs + rhs.r, lhs + rhs.g, lhs + rhs.b⟩

/-- `constexpr RGB operator- (float lhs, RGB rhs)`. -/
def operator_sub_float_RGB (lhs : ℚ) (rhs : RGB) : RGB :=
  ⟨lhs - rhs.r, lhs - rhs.g, lhs - rhs.b⟩

/-- `constexpr RGB operator* (float lhs, RGB rhs)`. -/
def operator_mul_float_RGB (lhs : ℚ) (rhs : RGB) : RGB :=
  ⟨lhs * rhs.r, lhs * rhs.g, lhs * rhs.b⟩

/-- `constexpr RGB operator/ (float lhs, RGB rhs)`. -/
def operator_div_float_RGB (lhs : ℚ) (rhs : RGB) : RGB :=
  ⟨lhs / rhs.r, lhs / rhs.g, lhs / rhs.b⟩

end gaudy

namespace tukan

/-- Modelled from the spec: `Nanometer.hh` is not part of the sources; the wavelength value
type with linear arithmetic, ordering and conversion to and from a plain magnitude. -/
abbrev Nanometer := ℚ

/-- Modelled from the spec: `Interval.hh` is not part of the sources; a closed interval over
an ordered scalar with minimum and maximum accessors. -/
structure Interval where
  min : ℚ
  max : ℚ
  deriving DecidableEq, Repr

/-- Modelled from the spec: `Interval.hh` is not part of the sources; the intersection of two
closed intervals, an optional overlap interval (absent when they share no point). -/
def intersection (lhs rhs : Interval) : Option Interval :=
  if Max.max lhs.min rhs.min ≤ Min.min lhs.max rhs.max then
    some ⟨Max.max lhs.min rhs.min, Min.min lhs.max rhs.max⟩
  else none

/-- Modelled from the spec: `Interval.hh` is not part of the sources; the length of a closed
interval. -/
def length (i : Interval) : ℚ := i.max - i.min

namespace future

/-- The ways a call can fail.  One constructor per `throw` site of `Spectrum.hh`, plus
`undefined_behaviour` for an unchecked read outside the storage or a dereference of an empty
optional. -/
inductive Error
  /-- `std::out_of_range("passed value outside range to Spectrum::at(size_t)")` -/
  | at_out_of_range
  /-- `std::logic_error("passed value < 0 to Spectrum::operator()(float)")` -/
  | float_lt_0
  /-- `std::logic_error("passed value > 1 to Spectrum::operator()(float)")` -/
  | float_gt_1
  /-- `std::logic_error("crap")` -/
  | crap
  /-- `std::logic_error("passed value < lambda_min to Spectrum::operator()(Nanometer)")` -/
  | nanometer_lt_lambda_min
  /-- `std::logic_error("passed value > lambda_max to Spectrum::operator()(Nanometer)")` -/
  | nanometer_gt_lambda_max
  /-- `std::logic_error("passed value < 0 to Spectrum::operator()(Interval<float>)")` -/
  | interval_lt_0
  /-- `std::logic_error("passed value > 1 to Spectrum::operator()(Interval<float>)")` -/
  | interval_gt_1
  /-- Not an exception: the source has left defined behaviour. -/
  | undefined_behaviour
  deriving DecidableEq, Repr

/-- The domain violations of the specification: a normalized position, a wavelength or an
interval bound outside its domain. -/
def Error.is_domain_error : Error → Bool
  | .float_lt_0 | .float_gt_1 => true
  | .nanometer_lt_lambda_min | .nanometer_gt_lambda_max => true
  | .interval_lt_0 | .interval_gt_1 => true
  | _ => false

/-- `struct SpectrumSample`; the default member initialisers give `(0, 0)`. -/
structure SpectrumSample where
  wavelength : Nanometer := 0
  amplitude : ℚ := 0
  deriving DecidableEq, Repr

/-- `operator== (SpectrumSample const &lhs, SpectrumSample const &rhs)`. -/
def SpectrumSample.operator_eq (lhs rhs : SpectrumSample) : Bool :=
  lhs.wavelength == rhs.wavelength && lhs.amplitude == rhs.amplitude

/-- `operator!= (SpectrumSample const &lhs, SpectrumSample const &rhs)`. -/
def SpectrumSample.operator_ne (lhs rhs : SpectrumSample) : Bool :=
  !(lhs.operator_eq rhs)

/-- `class Spectrum`: the two boundary wavelengths and the owned `std::valarray<float>`.
`size_fits` records that the element count is a `size_t`. -/
structure Spectrum where
  lambda_min_ : Nanometer
  lambda_max_ : Nanometer
  bins_ : List ℚ
  size_fits : bins_.length < 2 ^ 64

namespace Spectrum

/-- `Spectrum::lambda_min()`. -/
def lambda_min (s : Spectrum) : Nanometer := s.lambda_min_

/-- `Spectrum::lambda_max()`. -/
def lambda_max (s : Spectrum) : Nanometer := s.lambda_max_

/-- `Spectrum::size()`. -/
def size (s : Spectrum) : Nat := s.bins_.length

/-- `Spectrum::empty()`. -/
def empty (s : Spectrum) : Bool := 0 == s.size

/-- `Spectrum::operator[]`: no bounds check; a read outside the storage is undefined. -/
def subscript (s : Spectrum) (i : Nat) : Except Error ℚ :=
  match s.bins_[i]? with
  | some a => .ok a
  | none => .error .undefined_behaviour

/-- `Spectrum::at`: `i < numeric_limits<size_t>::min()` is never true of a `size_t`. -/
def «at» (s : Spectrum) (i : Nat) : Except Error ℚ :=
  if i < 0 ∨ i ≥ s.size then .error .at_out_of_range
  else s.subscript i

end Spectrum

/-- The loop `for (size_t i=0; i!=bins.size(); ++i) bins_[i] = bins[i];` of the constructor,
at index `i` with `count` iterations left. -/
def copy_bins (bins : List ℚ) : Nat → Nat → List ℚ → List ℚ
  | 0, _, bins_ => bins_
  | count + 1, i, bins_ => copy_bins bins count (i + 1) (bins_.set i (bins.getD i 0))

/-- `Spectrum::Spectrum (Nanometer lambda_min, Nanometer lambda_max, Cont const &bins)`: the
container is a sequence whose `size()` is a `size_t`; the storage starts as `bins.size()` zeros
(`bins_(bins.size())`, then `resize`) and is filled by the copy loop. -/
def Spectrum.construct (lambda_min lambda_max : Nanometer) (bins : List ℚ)
    (h : bins.length < 2 ^ 64) : Spectrum where
  lambda_min_ := lambda_min
  lambda_max_ := lambda_max
  bins_ := copy_bins bins bins.length 0 (List.replicate bins.length 0)
  size_fits := by
    have key : ∀ (count i : Nat) (dst : List ℚ),
        (copy_bins bins count i dst).length = dst.length := by
      intro count
      induction count with
      | zero => intro i dst; rfl
      | succ c ih => intro i dst; simp [copy_bins, ih]
    rw [key, List.length_replicate]
    exact h

/-- `size() - 1` in `size_t` arithmetic: the subtraction wraps modulo `2^64`. -/
def size_minus_1 (s : Spectrum) : Nat := (s.size + (2 ^ 64 - 1)) % 2 ^ 64

/-- Conversion of an `int` to `size_t` (an index or the left side of `size_t(i+1) >= size()`). -/
def size_t_of_int (i : ℤ) : Nat := (i % 2 ^ 64).toNat

/-- Conversion of a `float` to `int`: truncation toward zero. -/
def int_of_float (q : ℚ) : ℤ := if 0 ≤ q then ⌊q⌋ else ⌈q⌉

/-- `struct LinearInterpolator`: a view of one `Spectrum`. -/
structure LinearInterpolator where
  spec : Spectrum

namespace LinearInterpolator

/-- `LinearInterpolator::operator() (float f)`. -/
def call_float (li : LinearInterpolator) (f : ℚ) : Except Error SpectrumSample :=
  if f < 0 then .error .float_lt_0
  else if f > 1 then .error .float_gt_1
  else if f = 0 then do
    let a ← li.spec.subscript 0
    pure ⟨li.spec.lambda_min, a⟩
  else if f = 1 then do
    let a ← li.spec.subscript (size_minus_1 li.spec)
    pure ⟨li.spec.lambda_max, a⟩
  else
    let g : Nanometer := li.spec.lambda_min + f * (li.spec.lambda_max - li.spec.lambda_min)
    let i : ℤ := int_of_float (f * (size_minus_1 li.spec : ℚ))
    let bin_interval : Interval :=
      ⟨(i : ℚ) / (size_minus_1 li.spec : ℚ), ((1 + i : ℤ) : ℚ) / (size_minus_1 li.spec : ℚ)⟩
    let frac : ℚ := (f - bin_interval.min) / (bin_interval.max - bin_interval.min)
    if size_t_of_int (i + 1) ≥ li.spec.size then .error .crap
    else do
      let a ← li.spec.subscript (size_t_of_int i)
      let b ← li.spec.subscript (size_t_of_int (i + 1))
      pure ⟨g, a * (1 - frac) + b * frac⟩

/-- `LinearInterpolator::operator() (Nanometer g)`. -/
def call_Nanometer (li : LinearInterpolator) (g : Nanometer) : Except Error SpectrumSample :=
  if g < li.spec.lambda_min then .error .nanometer_lt_lambda_min
  else if g > li.spec.lambda_max then .error .nanometer_gt_lambda_max
  else
    let f : ℚ := (g - li.spec.lambda_min) / (li.spec.lambda_max - li.spec.lambda_min)
    li.call_float f

/-- The lambda `avg` of the interval query. -/
def avg (i : Interval) (A B : ℚ) : ℚ :=
  0.5 * (A * (1 - i.min) + B * i.min) + 0.5 * (A * (1 - i.max) + B * i.max)

/-- The lambda `bin_average` of the interval query; it returns `(weight, local_avg_amplitude)`.
The overlap is dereferenced without a check. -/
def bin_average (li : LinearInterpolator) (delta : ℚ) (r : Interval) (bin : ℤ) :
    Except Error (ℚ × ℚ) :=
  let bin_global : Interval := ⟨bin * delta, bin * delta + delta⟩
  match intersection bin_global r with
  | none => .error .undefined_behaviour
  | some overlap_global =>
    let overlap_local : Interval :=
      ⟨(overlap_global.min - bin_global.min) / delta,
       (overlap_global.max - bin_global.min) / delta⟩
    let weight := length overlap_global
    do
      let a ← li.spec.subscript (size_t_of_int bin)
      let b ← li.spec.subscript (size_t_of_int (bin + 1))
      pure (weight, avg overlap_local a b)

/-- The loop `for (auto i=min_i+1; i<max_i; ++i)` over the inner bins, started at `i` with
`count` iterations left; the state is `(ret.amplitude, weight_total)`. -/
def inner_bins (li : LinearInterpolator) (delta : ℚ) :
    Nat → ℤ → ℚ × ℚ → Except Error (ℚ × ℚ)
  | 0, _, acc => .ok acc
  | count + 1, i, acc => do
    let a ← li.spec.subscript (size_t_of_int i)
    let b ← li.spec.subscript (size_t_of_int (i + 1))
    let ba := a * 0.5 + b * 0.5
    inner_bins li delta count (i + 1) (acc.1 + ba * delta, acc.2 + delta)

/-- `LinearInterpolator::operator() (Interval<float> r)`. -/
def call_Interval (li : LinearInterpolator) (r : Interval) : Except Error SpectrumSample :=
  if r.min < 0 then .error .interval_lt_0
  else if r.max > 1 then .error .interval_gt_1
  else if r.min = r.max then li.call_float r.min
  else
    let delta : ℚ := 1 / (size_minus_1 li.spec : ℚ)
    let min_i : ℤ := int_of_float (r.min * (size_minus_1 li.spec : ℚ))
    let max_i : ℤ := int_of_float (r.max * (size_minus_1 li.spec : ℚ))
    do
      -- First bin:
      let ba ← li.bin_average delta r min_i
      let first : ℚ × ℚ := (0 + ba.2 * ba.1, 0 + ba.1)
      -- Second bin:
      let second ← (if min_i ≠ max_i then do
          let ba ← li.bin_average delta r max_i
          pure (first.1 + ba.2 * ba.1, first.2 + ba.1)
        else pure first : Except Error (ℚ × ℚ))
      -- Inner bins with known weight:
      let total ← li.inner_bins delta (max_i - (min_i + 1)).toNat (min_i + 1) second
      pure ⟨avg r li.spec.lambda_min li.spec.lambda_max, total.1 / total.2⟩

/-- The accumulation inside `LinearInterpolator::operator() (Interval<float> r)`, from the
declaration of `delta` to the end of the loop over the inner bins: the pair
`(ret.amplitude, weight_total)` just before `ret.amplitude /= weight_total`. -/
def weighted_sums (li : LinearInterpolator) (r : Interval) : Except Error (ℚ × ℚ) :=
  let delta : ℚ := 1 / (size_minus_1 li.spec : ℚ)
  let min_i : ℤ := int_of_float (r.min * (size_minus_1 li.spec : ℚ))
  let max_i : ℤ := int_of_float (r.max * (size_minus_1 li.spec : ℚ))
  do
    -- First bin:
    let ba ← li.bin_average delta r min_i
    let first : ℚ × ℚ := (0 + ba.2 * ba.1, 0 + ba.1)
    -- Second bin:
    let second ← (if min_i ≠ max_i then do
        let ba ← li.bin_average delta r max_i
        pure (first.1 + ba.2 * ba.1, first.2 + ba.1)
      else pure first : Except Error (ℚ × ℚ))
    -- Inner bins with known weight:
    li.inner_bins delta (max_i - (min_i + 1)).toNat (min_i + 1) second

end LinearInterpolator

/-- The spectrum `Spectrum(380nm, 730nm, [0.0, 1.0])`. -/
def ramp : Spectrum := ⟨380, 730, [0, 1], by decide⟩

/-- The spectrum `Spectrum(400nm, 700nm, [1, 0, 1])`. -/
def vee : Spectrum := ⟨400, 700, [1, 0, 1], by decide⟩

/-! ## The piecewise-linear reconstruction, as the specification words it -/

/-- Stated from the specification: segment `k` of the reconstruction spans
`[k/(N-1), (k+1)/(N-1)]`. -/
def segment (s : Spectrum) (k : ℕ) : Interval :=
  ⟨(k : ℚ) / ((s.size - 1 : ℕ) : ℚ), ((k : ℚ) + 1) / ((s.size - 1 : ℕ) : ℚ)⟩

/-- Stated from the specification: on segment `k` the reconstruction is
`L(x) = bin[k] + (bin[k+1]-bin[k])*(x*(N-1)-k)`. -/
def reconstruction (s : Spectrum) (k : ℕ) (x : ℚ) : ℚ :=
  s.bins_.getD k 0 +
    (s.bins_.getD (k + 1) 0 - s.bins_.getD k 0) * (x * ((s.size - 1 : ℕ) : ℚ) - k)

/-- Stated from the specification: the contribution of segment `k` to the integral over `r`,
`length(segment_k ∩ r) * (L(a_k)+L(b_k))/2` with `[a_k,b_k] = segment_k ∩ r`, and nothing when
the two do not meet. -/
def segment_integral (s : Spectrum) (r : Interval) (k : ℕ) : ℚ :=
  match intersection (segment s k) r with
  | none => 0
  | some o => length o * ((reconstruction s k o.min + reconstruction s k o.max) / 2)

/-- Stated from the specification: the integral over `r` of the piecewise-linear
reconstruction, the sum of the contributions of the segments `k` in `[0, N-2]`. -/
def reconstruction_integral (s : Spectrum) (r : Interval) : ℚ :=
  ∑ k in Finset.range (s.size - 1), segment_integral s r k

/-- The point of segment `k` nearest to `t`: `t` clamped into `[k/(N-1), (k+1)/(N-1)]`. -/
def segment_clamp (s : Spectrum) (k : ℕ) (t : ℚ) : ℚ :=
  Max.max (segment s k).min (Min.min (segment s k).max t)

namespace ieee754

/-- Rounding of a rational to the nearest integer, a tie going to the even neighbour. -/
def round_half_even (q : ℚ) : ℤ :=
  if q - ⌊q⌋ < 1 / 2 then ⌊q⌋
  else if 1 / 2 < q - ⌊q⌋ then ⌊q⌋ + 1
  else if ⌊q⌋ % 2 = 0 then ⌊q⌋
  else ⌊q⌋ + 1

/-- Rounding of a rational to the binary floating-point format with `p` significand bits and
least exponent `emin` (subnormals included): the nearest multiple of `2^(e-(p-1))`, where
`2^e <= |q| < 2^(e+1)` and `e` is raised to `emin` when it is smaller. -/
def round_to (p : ℕ) (emin : ℤ) (q : ℚ) : ℚ :=
  if q = 0 then 0
  else
    let e : ℤ := Max.max (Int.log 2 |q|) emin
    (round_half_even (q / 2 ^ (e - ((p : ℤ) - 1))) : ℚ) * 2 ^ (e - ((p : ℤ) - 1))

/-- Rounding to `float` (binary32): 24 significand bits, least exponent `-126`. -/
def to_float (q : ℚ) : ℚ := round_to 24 (-126) q

/-- Rounding to `double` (binary64): 53 significand bits, least exponent `-1022`. -/
def to_double (q : ℚ) : ℚ := round_to 53 (-1022) q

/-- Modelled from the spec: `Interval.hh` is not part of the sources; the length of an
`Interval<float>`, the `float` difference of its two ends. -/
def length (i : Interval) : ℚ := to_float (i.max - i.min)

/-- `LinearInterpolator::operator() (float f)` over `float` arithmetic. -/
def call_float (li : LinearInterpolator) (f : ℚ) : Except Error SpectrumSample :=
  if f < 0 then .error .float_lt_0
  else if f > 1 then .error .float_gt_1
  else if f = 0 then do
    let a ← li.spec.subscript 0
    pure ⟨li.spec.lambda_min, a⟩
  else if f = 1 then do
    let a ← li.spec.subscript (size_minus_1 li.spec)
    pure ⟨li.spec.lambda_max, a⟩
  else
    let g : Nanometer := li.spec.lambda_min + f * (li.spec.lambda_max - li.spec.lambda_min)
    let i : ℤ := int_of_float (to_float (f * to_float (size_minus_1 li.spec : ℚ)))
    let bin_interval : Interval :=
      ⟨to_float (to_float (i : ℚ) / to_float (size_minus_1 li.spec : ℚ)),
       to_float (to_float ((1 + i : ℤ) : ℚ) / to_float (size_minus_1 li.spec : ℚ))⟩
    let frac : ℚ :=
      to_float (to_float (f - bin_interval.min) / to_float (bin_interval.max - bin_interval.min))
    if size_t_of_int (i + 1) ≥ li.spec.size then .error .crap
    else do
      let a ← li.spec.subscript (size_t_of_int i)
      let b ← li.spec.subscript (size_t_of_int (i + 1))
      pure ⟨g, to_float (to_float (a * to_float (1 - frac)) + to_float (b * frac))⟩

/-- The lambda `avg` of the interval query over machine arithmetic: the two inner sums are
`float`, the products with the literal `0.5` and their sum are `double`. -/
def avg (i : Interval) (A B : ℚ) : ℚ :=
  to_double
    (to_double (0.5 * to_float (to_float (A * to_float (1 - i.min)) + to_float (B * i.min)))
      + to_double (0.5 * to_float (to_float (A * to_float (1 - i.max)) + to_float (B * i.max))))

/-- The lambda `bin_average` of the interval query over `float` arithmetic; it returns
`(weight, local_avg_amplitude)`, a `float` and a `double`.  The overlap is dereferenced
without a check. -/
def bin_average (li : LinearInterpolator) (delta : ℚ) (r : Interval) (bin : ℤ) :
    Except Error (ℚ × ℚ) :=
  let bin_global : Interval :=
    ⟨to_float (to_float (bin : ℚ) * delta),
     to_float (to_float (to_float (bin : ℚ) * delta) + delta)⟩
  match intersection bin_global r with
  | none => .error .undefined_behaviour
  | some overlap_global =>
    let overlap_local : Interval :=
      ⟨to_float (to_float (overlap_global.min - bin_global.min) / delta),
       to_float (to_float (overlap_global.max - bin_global.min) / delta)⟩
    let weight := length overlap_global
    do
      let a ← li.spec.subscript (size_t_of_int bin)
      let b ← li.spec.subscript (size_t_of_int (bin + 1))
      pure (weight, avg overlap_local a b)

/-- The loop `for (auto i=min_i+1; i<max_i; ++i)` over the inner bins in `float` arithmetic,
started at `i` with `count` iterations left; the state is `(ret.amplitude, weight_total)`. -/
def inner_bins (li : LinearInterpolator) (delta : ℚ) :
    Nat → ℤ → ℚ × ℚ → Except Error (ℚ × ℚ)
  | 0, _, acc => .ok acc
  | count + 1, i, acc => do
    let a ← li.spec.subscript (size_t_of_int i)
    let b ← li.spec.subscript (size_t_of_int (i + 1))
    let ba := to_float (to_float (a * 0.5) + to_float (b * 0.5))
    inner_bins li delta count (i + 1)
      (to_float (acc.1 + to_float (ba * delta)), to_float (acc.2 + delta))

/-- `LinearInterpolator::operator() (Interval<float> r)` over machine arithmetic:
`ret.amplitude += get<1>(ba) * get<0>(ba)` multiplies and adds in `double` and stores a
`float`. -/
def call_Interval (li : LinearInterpolator) (r : Interval) : Except Error SpectrumSample :=
  if r.min < 0 then .error .interval_lt_0
  else if r.max > 1 then .error .interval_gt_1
  else if r.min = r.max then call_float li r.min
  else
    let delta : ℚ := to_float (1 / to_float (size_minus_1 li.spec : ℚ))
    let min_i : ℤ := int_of_float (to_float (r.min * to_float (size_minus_1 li.spec : ℚ)))
    let max_i : ℤ := int_of_float (to_float (r.max * to_float (size_minus_1 li.spec : ℚ)))
    do
      -- First bin:
      let ba ← bin_average li delta r min_i
      let first : ℚ × ℚ :=
        (to_float (to_double (0 + to_double (ba.2 * ba.1))), to_float (0 + ba.1))
      -- Second bin:
      let second ← (if min_i ≠ max_i then do
          let ba ← bin_average li delta r max_i
          pure (to_float (to_double (first.1 + to_double (ba.2 * ba.1))),
            to_float (first.2 + ba.1))
        else pure first : Except Error (ℚ × ℚ))
      -- Inner bins with known weight:
      let total ← inner_bins li delta (max_i - (min_i + 1)).toNat (min_i + 1) second
      pure ⟨avg r (to_float li.spec.lambda_min) (to_float li.spec.lambda_max),
        to_float (total.1 / total.2)⟩

end ieee754

/-- A spectrum of seven bins, `Spectrum(400nm, 700nm, [1, 2, 3, 4, 5, 6, 7])`. -/
def seven_bins : Spectrum := ⟨400, 700, [1, 2, 3, 4, 5, 6, 7], by decide⟩

/-- A spectrum of twelve bins, all `0` except bin 5, which is `1`. -/
def twelve_bins : Spectrum := ⟨400, 700, [0, 0, 0, 0, 0, 1, 0, 0, 0, 0, 0, 0], by decide⟩

/-- A spectrum of seven bins, `Spectrum(400nm, 700nm, [7, 6, 5, 4, 3, 2, 1])`. -/
def seven_bins_reversed : Spectrum := ⟨400, 700, [7, 6, 5, 4, 3, 2, 1], by decide⟩

/-- The combination `2*seven_bins + 3*seven_bins_reversed`, bin by bin. -/
def seven_bins_combined : Spectrum := ⟨400, 700, [23, 22, 21, 20, 19, 18, 17], by decide⟩

open LinearInterpolator

/-! ## Basic facts about the numeric conversions and the unchecked read, and the point query -/

theorem size_minus_1_eq (s : Spectrum) (h : 1 ≤ s.size) : size_minus_1 s = s.size - 1 := by
  have := s.size_fits
  unfold size_minus_1 Spectrum.size at *
  omega

theorem size_t_of_int_natCast (n : ℕ) (h : n < 2 ^ 64) : size_t_of_int (n : ℤ) = n := by
  unfold size_t_of_int
  have : ((n : ℤ) % 2 ^ 64) = n := Int.emod_eq_of_lt (by positivity) (by exact_mod_cast h)
  rw [this]; simp

theorem int_of_float_nonneg (q : ℚ) (h : 0 ≤ q) : int_of_float q = ⌊q⌋ := by
  simp [int_of_float, h]

theorem subscript_of_lt (s : Spectrum) (i : ℕ) (h : i < s.size) :
    s.subscript i = .ok (s.bins_.getD i 0) := by
  unfold Spectrum.subscript Spectrum.size at *
  simp [List.getElem?_eq_getElem h, List.getD_eq_getElem?_getD]

theorem subscript_of_ge (s : Spectrum) (i : ℕ) (h : s.size ≤ i) :
    s.subscript i = .error .undefined_behaviour := by
  unfold Spectrum.subscript Spectrum.size at *
  simp [List.getElem?_eq_none h]

/-- For `0 ≤ q < 1` the `int` obtained from `q * n` is a natural number below `n`. -/
theorem int_of_float_mul_lt (q : ℚ) (n : ℕ) (h0 : 0 ≤ q) (h1 : q < 1) (hn : 0 < n) :
    ∃ k : ℕ, int_of_float (q * n) = k ∧ k < n ∧ (k : ℚ) ≤ q * n ∧ q * n < k + 1 := by
  have hqn : 0 ≤ q * n := by positivity
  rw [int_of_float_nonneg _ hqn]
  have hfl : 0 ≤ ⌊q * n⌋ := Int.floor_nonneg.mpr hqn
  obtain ⟨k, hk⟩ := Int.eq_ofNat_of_zero_le hfl
  refine ⟨k, hk, ?_, ?_, ?_⟩
  · have : q * n < n := by
      have hn' : (0 : ℚ) < n := by exact_mod_cast hn
      nlinarith
    have h2 : ⌊q * n⌋ < (n : ℤ) := by
      rw [Int.floor_lt]; exact_mod_cast this
    rw [hk] at h2; exact_mod_cast h2
  · have := Int.floor_le (q * n)
    rw [hk] at this; exact_mod_cast this
  · have := Int.lt_floor_add_one (q * n)
    rw [hk] at this; exact_mod_cast this


/-- The point query strictly inside the domain, for at least two bins: with `k` the `int`
computed from `f * (size()-1)`, the call returns the interpolation of bins `k` and `k+1`. -/
theorem call_float_interior (s : Spectrum) (f : ℚ) (hN : 2 ≤ s.size) (h0 : 0 < f) (h1 : f < 1) :
    ∃ k : ℕ, (k : ℤ) = ⌊f * ((s.size - 1 : ℕ) : ℚ)⌋ ∧ k + 1 < s.size ∧
      (LinearInterpolator.mk s).call_float f =
        .ok ⟨s.lambda_min + f * (s.lambda_max - s.lambda_min),
             s.bins_.getD k 0 * (1 - (f * ((s.size - 1 : ℕ) : ℚ) - k))
               + s.bins_.getD (k + 1) 0 * (f * ((s.size - 1 : ℕ) : ℚ) - k)⟩ := by
  have hsz := s.size_fits
  have hm : size_minus_1 s = s.size - 1 := size_minus_1_eq s (by omega)
  obtain ⟨k, hk, hkn, hle, hlt⟩ := int_of_float_mul_lt f (s.size - 1) h0.le h1 (by omega)
  have hk' : (k : ℤ) = ⌊f * ((s.size - 1 : ℕ) : ℚ)⌋ := by
    rw [← hk, int_of_float_nonneg _ (by positivity)]
  refine ⟨k, hk', by omega, ?_⟩
  have hn0 : ((s.size - 1 : ℕ) : ℚ) ≠ 0 := by
    have : 0 < s.size - 1 := by omega
    exact_mod_cast this.ne'
  have e1 : size_t_of_int ((k : ℤ) + 1) = k + 1 := by
    have := size_t_of_int_natCast (k + 1) (by unfold Spectrum.size at *; omega)
    simpa using this
  have e0 : size_t_of_int (k : ℤ) = k :=
    size_t_of_int_natCast k (by unfold Spectrum.size at *; omega)
  unfold call_float
  simp only [hm, hk, e1, e0]
  rw [if_neg (not_lt.mpr h0.le), if_neg (not_lt.mpr h1.le), if_neg h0.ne', if_neg h1.ne,
    if_neg (by omega), subscript_of_lt s k (by omega), subscript_of_lt s (k + 1) (by omega)]
  simp only [bind, Except.bind, pure, Except.pure]
  have hfrac : (f - (k : ℚ) / ((s.size - 1 : ℕ) : ℚ)) /
      ((((1 + (k : ℤ) : ℤ)) : ℚ) / ((s.size - 1 : ℕ) : ℚ) - (k : ℚ) / ((s.size - 1 : ℕ) : ℚ))
      = f * ((s.size - 1 : ℕ) : ℚ) - k := by
    generalize ((s.size - 1 : ℕ) : ℚ) = n at hn0
    simp only [Int.cast_add, Int.cast_one, Int.cast_natCast]
    have h2 : (1 + (k : ℚ)) / n - (k : ℚ) / n = 1 / n := by ring
    rw [h2]
    field_simp
  simp only [Int.cast_natCast] at hfrac ⊢
  rw [hfrac]


/-- The point query at the two ends of the domain, for a non-empty spectrum. -/
theorem call_float_zero (s : Spectrum) (hN : 1 ≤ s.size) :
    (LinearInterpolator.mk s).call_float 0 = .ok ⟨s.lambda_min, s.bins_.getD 0 0⟩ := by
  unfold call_float
  simp [subscript_of_lt s 0 (by omega), bind, Except.bind, pure, Except.pure]

theorem call_float_one (s : Spectrum) (hN : 1 ≤ s.size) :
    (LinearInterpolator.mk s).call_float 1 =
      .ok ⟨s.lambda_max, s.bins_.getD (s.size - 1) 0⟩ := by
  unfold call_float
  simp [size_minus_1_eq s hN, subscript_of_lt s (s.size - 1) (by omega), bind, Except.bind,
    pure, Except.pure]

/-- C3: for a spectrum with at least two bins the point query at `f = 0` returns exactly
`(lambda_min, bin[0])` and at `f = 1` exactly `(lambda_max, bin[N-1])`. -/
theorem call_float_endpoints (s : Spectrum) (hN : 2 ≤ s.size) :
    (LinearInterpolator.mk s).call_float 0 = .ok ⟨s.lambda_min, s.bins_.getD 0 0⟩ ∧
    (LinearInterpolator.mk s).call_float 1 =
      .ok ⟨s.lambda_max, s.bins_.getD (s.size - 1) 0⟩ :=
  ⟨call_float_zero s (by omega), call_float_one s (by omega)⟩

/-- C3 on `Spectrum(400, 700, [1, 0, 1])`: the end points give `(400, 1)` and `(700, 1)`. -/
theorem call_float_endpoints_witness :
    (LinearInterpolator.mk vee).call_float 0 = .ok ⟨400, 1⟩ ∧
    (LinearInterpolator.mk vee).call_float 1 = .ok ⟨700, 1⟩ := by
  have h := call_float_endpoints vee (by decide)
  simpa [vee, Spectrum.size, Spectrum.lambda_min, Spectrum.lambda_max] using h

/-- C10: for a spectrum with at least two bins the point query fails with a domain error
if and only if `f < 0` or `f > 1`, and for every `f` in `[0,1]` it returns a sample. -/
theorem call_float_domain_error_iff (s : Spectrum) (hN : 2 ≤ s.size) (f : ℚ) :
    ((∃ e, (LinearInterpolator.mk s).call_float f = .error e ∧ e.is_domain_error = true) ↔
      (f < 0 ∨ f > 1)) ∧
    (0 ≤ f → f ≤ 1 → ∃ x, (LinearInterpolator.mk s).call_float f = .ok x) := by
  have hin : 0 ≤ f → f ≤ 1 → ∃ x, (LinearInterpolator.mk s).call_float f = .ok x := by
    intro h0 h1
    rcases h0.eq_or_lt with h | h
    · exact ⟨_, h ▸ call_float_zero s (by omega)⟩
    rcases h1.eq_or_lt with h' | h'
    · exact ⟨_, h' ▸ call_float_one s (by omega)⟩
    · obtain ⟨k, -, -, hc⟩ := call_float_interior s f hN h h'
      exact ⟨_, hc⟩
  refine ⟨⟨?_, ?_⟩, hin⟩
  · rintro ⟨e, he, -⟩
    by_contra hcon
    push_neg at hcon
    obtain ⟨x, hx⟩ := hin hcon.1 hcon.2
    rw [hx] at he
    cases he
  · rintro (h | h)
    · exact ⟨.float_lt_0, by simp [call_float, h], rfl⟩
    · have : ¬ f < 0 := by linarith
      exact ⟨.float_gt_1, by simp [call_float, h, this], rfl⟩

/-- C10 on `Spectrum(380, 730, [0.0, 1.0])`: `f = 2` is a domain error and `f = 1/2` is not. -/
theorem call_float_domain_error_iff_witness :
    (∃ e, (LinearInterpolator.mk ramp).call_float 2 = .error e ∧ e.is_domain_error = true) ∧
    (∃ x, (LinearInterpolator.mk ramp).call_float (1 / 2) = .ok x) :=
  ⟨(call_float_domain_error_iff ramp (by decide) 2).1.mpr (Or.inr (by norm_num)),
   (call_float_domain_error_iff ramp (by decide) (1 / 2)).2 (by norm_num) (by norm_num)⟩


theorem intersection_of_le (a b : Interval)
    (h : Max.max a.min b.min ≤ Min.min a.max b.max) :
    intersection a b = some ⟨Max.max a.min b.min, Min.min a.max b.max⟩ := by
  simp [intersection, h]

theorem intersection_of_lt (a b : Interval)
    (h : Min.min a.max b.max < Max.max a.min b.min) : intersection a b = none := by
  simp [intersection, not_le.mpr h]

/-- A segment that ends at or before the start of `r` contributes nothing. -/
theorem segment_integral_left (s : Spectrum) (r : Interval) (k : ℕ)
    (h : (segment s k).max ≤ r.min) (hr : r.min ≤ r.max)
    (hs : (segment s k).min ≤ (segment s k).max) : segment_integral s r k = 0 := by
  unfold segment_integral intersection
  split_ifs with hc
  · have h1 : Max.max (segment s k).min r.min = r.min := max_eq_right (hs.trans h)
    have h2 : Min.min (segment s k).max r.max = (segment s k).max :=
      min_eq_left (h.trans hr)
    rw [h1, h2] at hc
    have : (segment s k).max = r.min := le_antisymm h hc
    simp only [tukan.length, h1, h2]
    rw [this]
    ring
  · rfl

/-- A segment that starts after the end of `r` contributes nothing. -/
theorem segment_integral_right (s : Spectrum) (r : Interval) (k : ℕ)
    (h : r.max < (segment s k).min) : segment_integral s r k = 0 := by
  unfold segment_integral
  rw [intersection_of_lt]
  exact lt_of_le_of_lt (min_le_right _ _) (lt_of_lt_of_le h (le_max_left _ _))

theorem segment_min_le_max (s : Spectrum) (k : ℕ) : (segment s k).min ≤ (segment s k).max := by
  unfold segment
  simp only
  apply div_le_div_of_nonneg_right _ (by positivity)
  linarith

theorem reconstruction_segment_min (s : Spectrum) (hN : 2 ≤ s.size) (k : ℕ) :
    reconstruction s k (segment s k).min = s.bins_.getD k 0 := by
  have hn0 : ((s.size - 1 : ℕ) : ℚ) ≠ 0 := Nat.cast_ne_zero.mpr (by omega)
  unfold reconstruction segment
  simp only
  rw [div_mul_cancel₀ _ hn0]
  ring

theorem reconstruction_segment_max (s : Spectrum) (hN : 2 ≤ s.size) (k : ℕ) :
    reconstruction s k (segment s k).max = s.bins_.getD (k + 1) 0 := by
  have hn0 : ((s.size - 1 : ℕ) : ℚ) ≠ 0 := Nat.cast_ne_zero.mpr (by omega)
  unfold reconstruction segment
  simp only
  rw [div_mul_cancel₀ _ hn0]
  ring

/-- A segment wholly inside `r` contributes its width times the mean of its two bins. -/
theorem segment_integral_inside (s : Spectrum) (hN : 2 ≤ s.size) (r : Interval) (k : ℕ)
    (h1 : r.min ≤ (segment s k).min) (h2 : (segment s k).max ≤ r.max) :
    segment_integral s r k =
      (s.bins_.getD k 0 * 0.5 + s.bins_.getD (k + 1) 0 * 0.5) *
        (1 / ((s.size - 1 : ℕ) : ℚ)) := by
  have hs := segment_min_le_max s k
  have e1 : Max.max (segment s k).min r.min = (segment s k).min := max_eq_left h1
  have e2 : Min.min (segment s k).max r.max = (segment s k).max := min_eq_left h2
  unfold segment_integral
  rw [intersection_of_le _ _ (by rw [e1, e2]; exact hs)]
  simp only [e1, e2, reconstruction_segment_min s hN, reconstruction_segment_max s hN,
    tukan.length]
  have : (segment s k).max - (segment s k).min = 1 / ((s.size - 1 : ℕ) : ℚ) := by
    unfold segment; simp only; ring
  rw [this]
  norm_num
  ring


/-- What `bin_average` returns for a bin with both reads inside the storage and a non-empty
overlap `o`: the overlap's length and the mean of the reconstruction at the overlap's ends. -/
theorem bin_average_eq (s : Spectrum) (hN : 2 ≤ s.size) (r : Interval) (k : ℕ)
    (hk : k + 1 < s.size) (o : Interval) (ho : intersection (segment s k) r = some o) :
    (LinearInterpolator.mk s).bin_average (1 / ((s.size - 1 : ℕ) : ℚ)) r (k : ℤ) =
      .ok (length o, (reconstruction s k o.min + reconstruction s k o.max) / 2) := by
  have hsz := s.size_fits
  have hn0 : ((s.size - 1 : ℕ) : ℚ) ≠ 0 := Nat.cast_ne_zero.mpr (by omega)
  have hseg : (⟨((k : ℤ) : ℚ) * (1 / ((s.size - 1 : ℕ) : ℚ)),
      ((k : ℤ) : ℚ) * (1 / ((s.size - 1 : ℕ) : ℚ)) + 1 / ((s.size - 1 : ℕ) : ℚ)⟩ : Interval)
      = segment s k := by
    unfold segment
    simp only [Int.cast_natCast, Interval.mk.injEq]
    constructor <;> ring
  have e1 : size_t_of_int ((k : ℤ) + 1) = k + 1 := by
    have := size_t_of_int_natCast (k + 1) (by unfold Spectrum.size at *; omega)
    simpa using this
  have e0 : size_t_of_int (k : ℤ) = k :=
    size_t_of_int_natCast k (by unfold Spectrum.size at *; omega)
  unfold bin_average
  simp only [hseg, ho, e0, e1, subscript_of_lt s k (by omega),
    subscript_of_lt s (k + 1) (by omega), bind, Except.bind, pure, Except.pure]
  have havg : avg ⟨(o.min - ((k : ℤ) : ℚ) * (1 / ((s.size - 1 : ℕ) : ℚ))) /
        (1 / ((s.size - 1 : ℕ) : ℚ)),
      (o.max - ((k : ℤ) : ℚ) * (1 / ((s.size - 1 : ℕ) : ℚ))) / (1 / ((s.size - 1 : ℕ) : ℚ))⟩
      (s.bins_.getD k 0) (s.bins_.getD (k + 1) 0)
      = (reconstruction s k o.min + reconstruction s k o.max) / 2 := by
    unfold avg reconstruction
    simp only [Int.cast_natCast]
    generalize ((s.size - 1 : ℕ) : ℚ) = n at hn0
    field_simp
    ring
  rw [havg]

/-- The loop over the inner bins, when every read is inside the storage: each iteration adds
the mean of two neighbouring bins times `delta` to the amplitude and `delta` to the weight. -/
theorem inner_bins_eq (s : Spectrum) (delta : ℚ) (count : ℕ) :
    ∀ (i : ℕ) (acc : ℚ × ℚ), i + count < s.size →
      (LinearInterpolator.mk s).inner_bins delta count (i : ℤ) acc =
        .ok (acc.1 + ∑ j in Finset.range count,
              (s.bins_.getD (i + j) 0 * 0.5 + s.bins_.getD (i + j + 1) 0 * 0.5) * delta,
             acc.2 + count * delta) := by
  have hsz := s.size_fits
  induction count with
  | zero => intro i acc _; simp [inner_bins]
  | succ c ih =>
    intro i acc h
    have e1 : size_t_of_int ((i : ℤ) + 1) = i + 1 := by
      have := size_t_of_int_natCast (i + 1) (by unfold Spectrum.size at *; omega)
      simpa using this
    have e0 : size_t_of_int (i : ℤ) = i :=
      size_t_of_int_natCast i (by unfold Spectrum.size at *; omega)
    have hnext := ih (i + 1) (acc.1 + (s.bins_.getD i 0 * 0.5 + s.bins_.getD (i + 1) 0 * 0.5)
      * delta, acc.2 + delta) (by omega)
    unfold inner_bins
    simp only [e0, e1, subscript_of_lt s i (by omega), subscript_of_lt s (i + 1) (by omega),
      bind, Except.bind]
    have hcast : ((i : ℤ) + 1) = ((i + 1 : ℕ) : ℤ) := by push_cast; ring
    rw [hcast, hnext, Finset.sum_range_succ']
    simp only [Nat.cast_add, Nat.cast_one, add_zero]
    congr 2
    · have : ∀ j, i + 1 + j = i + (j + 1) := by intro j; ring
      simp only [this]
      ring
    · ring


/-- A sum over `[0, n)` of a function vanishing outside `[a, b]` is the term at `a`, the term
at `b` when `b` differs from `a`, and the terms strictly between them. -/
theorem sum_range_first_last_inner (g : ℕ → ℚ) (a b n : ℕ) (hab : a ≤ b) (hbn : b < n)
    (hl : ∀ k, k < a → g k = 0) (hr : ∀ k, b < k → g k = 0) :
    ∑ k in Finset.range n, g k =
      g a + (if a ≠ b then g b else 0) + ∑ j in Finset.range (b - (a + 1)), g (a + 1 + j) := by
  have h1 : ∑ k in Finset.range n, g k = ∑ k in Finset.Ico a (b + 1), g k := by
    rw [Finset.range_eq_Ico]
    rw [← Finset.sum_Ico_consecutive g (Nat.zero_le a) (by omega : a ≤ n)]
    rw [← Finset.sum_Ico_consecutive g (by omega : a ≤ b + 1) (by omega : b + 1 ≤ n)]
    have z1 : ∑ k in Finset.Ico 0 a, g k = 0 :=
      Finset.sum_eq_zero (fun k hk => hl k (Finset.mem_Ico.mp hk).2)
    have z2 : ∑ k in Finset.Ico (b + 1) n, g k = 0 :=
      Finset.sum_eq_zero (fun k hk => hr k (by have := (Finset.mem_Ico.mp hk).1; omega))
    rw [z1, z2]; ring
  rw [h1, Finset.sum_eq_sum_Ico_succ_bot (by omega : a < b + 1)]
  by_cases hne : a = b
  · subst hne
    simp
  · rw [if_pos hne, Finset.sum_Ico_succ_top (by omega : a + 1 ≤ b),
      Finset.sum_Ico_eq_sum_range]
    ring


theorem segment_max_le_min (s : Spectrum) (k j : ℕ) (h : k + 1 ≤ j) :
    (segment s k).max ≤ (segment s j).min := by
  unfold segment
  simp only
  apply div_le_div_of_nonneg_right _ (by positivity)
  exact_mod_cast h

/-- The interval query on a non-degenerate interval inside the domain divides the two
accumulated sums. -/
theorem call_Interval_of_weighted_sums (li : LinearInterpolator) (r : Interval)
    (h0 : 0 ≤ r.min) (hne : r.min ≠ r.max) (h1 : r.max ≤ 1) :
    li.call_Interval r =
      match li.weighted_sums r with
      | .error e => .error e
      | .ok total => .ok ⟨avg r li.spec.lambda_min li.spec.lambda_max, total.1 / total.2⟩ := by
  unfold call_Interval weighted_sums
  rw [if_neg (not_lt.mpr h0), if_neg (not_lt.mpr h1), if_neg hne]
  simp only [bind, Except.bind, pure, Except.pure]
  cases li.bin_average (1 / (size_minus_1 li.spec : ℚ)) r
      (int_of_float (r.min * (size_minus_1 li.spec : ℚ))) with
  | error e => rfl
  | ok ba =>
    simp only
    split_ifs
    · cases li.bin_average (1 / (size_minus_1 li.spec : ℚ)) r
        (int_of_float (r.max * (size_minus_1 li.spec : ℚ))) with
      | error e => rfl
      | ok bb =>
        simp only
        cases li.inner_bins (1 / (size_minus_1 li.spec : ℚ)) _ _ _ <;> rfl
    · simp only
      cases li.inner_bins (1 / (size_minus_1 li.spec : ℚ)) _ _ _ <;> rfl

/-- The two sums accumulated by the interval query on a non-degenerate interval that ends
before `1`, for at least two bins: the integral of the reconstruction over `r` and the length
of `r`. -/
theorem weighted_sums_eq (s : Spectrum) (hN : 2 ≤ s.size) (r : Interval)
    (h0 : 0 ≤ r.min) (hlt : r.min < r.max) (h1 : r.max < 1) :
    (LinearInterpolator.mk s).weighted_sums r =
      .ok (reconstruction_integral s r, r.max - r.min) := by
  have hm : size_minus_1 s = s.size - 1 := size_minus_1_eq s (by omega)
  have hnpos : (0 : ℚ) < ((s.size - 1 : ℕ) : ℚ) := by
    have : 0 < s.size - 1 := by omega
    exact_mod_cast this
  obtain ⟨ka, hka, hkan, hale, halt⟩ :=
    int_of_float_mul_lt r.min (s.size - 1) h0 (by linarith) (by omega)
  obtain ⟨kb, hkb, hkbn, hble, hblt⟩ :=
    int_of_float_mul_lt r.max (s.size - 1) (by linarith) h1 (by omega)
  have hab : ka ≤ kb := by
    have hmul : r.min * ((s.size - 1 : ℕ) : ℚ) < r.max * ((s.size - 1 : ℕ) : ℚ) :=
      mul_lt_mul_of_pos_right hlt hnpos
    have : (ka : ℚ) < (kb : ℚ) + 1 := by linarith
    have : ka < kb + 1 := by exact_mod_cast this
    omega
  -- the two boundary segments
  have sa_min : (segment s ka).min ≤ r.min := by
    unfold segment; simp only; rw [div_le_iff₀ hnpos]; exact hale
  have sa_max : r.min < (segment s ka).max := by
    unfold segment; simp only; rw [lt_div_iff₀ hnpos]; exact halt
  have sb_min : (segment s kb).min ≤ r.max := by
    unfold segment; simp only; rw [div_le_iff₀ hnpos]; exact hble
  have sb_max : r.max < (segment s kb).max := by
    unfold segment; simp only; rw [lt_div_iff₀ hnpos]; exact hblt
  have hoa := intersection_of_le (segment s ka) r (by
    rw [max_eq_right sa_min]; exact le_min sa_max.le hlt.le)
  have hob := intersection_of_le (segment s kb) r (by
    rw [min_eq_right sb_max.le]; exact max_le sb_min hlt.le)
  have hfirst := bin_average_eq s hN r ka (by omega) _ hoa
  have hsecond := bin_average_eq s hN r kb (by omega) _ hob
  have hcount : ((kb : ℤ) - ((ka : ℤ) + 1)).toNat = kb - (ka + 1) := by omega
  have hinner := inner_bins_eq s (1 / ((s.size - 1 : ℕ) : ℚ)) (kb - (ka + 1)) (ka + 1)
  have hcast : ((ka : ℤ) + 1) = ((ka + 1 : ℕ) : ℤ) := by push_cast; ring
  -- the integral, split as the code accumulates it
  have hsum := sum_range_first_last_inner (segment_integral s r) ka kb (s.size - 1) hab hkbn
    (fun k hk => segment_integral_left s r k
      ((segment_max_le_min s k ka (by omega)).trans sa_min) hlt.le (segment_min_le_max s k))
    (fun k hk => segment_integral_right s r k
      (lt_of_lt_of_le sb_max (segment_max_le_min s kb k (by omega))))
  have hin : ∑ j in Finset.range (kb - (ka + 1)),
      (s.bins_.getD (ka + 1 + j) 0 * 0.5 + s.bins_.getD (ka + 1 + j + 1) 0 * 0.5) *
        (1 / ((s.size - 1 : ℕ) : ℚ))
      = ∑ j in Finset.range (kb - (ka + 1)), segment_integral s r (ka + 1 + j) := by
    apply Finset.sum_congr rfl
    intro j hj
    have hj' := Finset.mem_range.mp hj
    rw [segment_integral_inside s hN r (ka + 1 + j)
      (sa_max.le.trans (segment_max_le_min s ka (ka + 1 + j) (by omega)))
      ((segment_max_le_min s (ka + 1 + j) kb (by omega)).trans sb_min)]
  have hsa : segment_integral s r ka = length ⟨Max.max (segment s ka).min r.min,
      Min.min (segment s ka).max r.max⟩ *
      ((reconstruction s ka (Max.max (segment s ka).min r.min) +
        reconstruction s ka (Min.min (segment s ka).max r.max)) / 2) := by
    simp only [segment_integral, hoa]
  have hsb : segment_integral s r kb = length ⟨Max.max (segment s kb).min r.min,
      Min.min (segment s kb).max r.max⟩ *
      ((reconstruction s kb (Max.max (segment s kb).min r.min) +
        reconstruction s kb (Min.min (segment s kb).max r.max)) / 2) := by
    simp only [segment_integral, hob]
  unfold weighted_sums
  simp only [hm, hka, hkb, hcount]
  rw [hfirst]
  by_cases hne : ka = kb
  · subst hne
    have hcnt : ka - (ka + 1) = 0 := by omega
    simp only [ne_eq, not_true_eq_false, if_false, bind, Except.bind, pure, Except.pure,
      hcnt, inner_bins, zero_add, Except.ok.injEq, Prod.mk.injEq]
    constructor
    · rw [reconstruction_integral, hsum, hsa]
      simp only [ne_eq, not_true_eq_false, if_false, hcnt, Finset.range_zero,
        Finset.sum_empty, add_zero]
      ring
    · simp only [tukan.length]
      rw [max_eq_right sa_min, min_eq_right sb_max.le]
  · have hne' : (ka : ℤ) ≠ (kb : ℤ) := by exact_mod_cast hne
    have hlt' : ka + 1 ≤ kb := by omega
    simp only [ne_eq, hne', not_false_eq_true, if_true, hsecond, bind, Except.bind, pure,
      Except.pure, hcast]
    rw [hinner (_, _) (by omega), hin]
    simp only [zero_add, Except.ok.injEq, Prod.mk.injEq]
    have hw : length ⟨Max.max (segment s ka).min r.min, Min.min (segment s ka).max r.max⟩ +
        length ⟨Max.max (segment s kb).min r.min, Min.min (segment s kb).max r.max⟩ +
        ((kb - (ka + 1) : ℕ) : ℚ) * (1 / ((s.size - 1 : ℕ) : ℚ)) = r.max - r.min := by
      have c1 : (segment s ka).max ≤ (segment s kb).min := segment_max_le_min s ka kb hlt'
      simp only [tukan.length]
      rw [max_eq_right sa_min, min_eq_left (c1.trans sb_min),
        max_eq_left (sa_max.le.trans c1), min_eq_right sb_max.le, Nat.cast_sub hlt']
      unfold segment
      simp only
      push_cast
      ring
    refine ⟨?_, hw⟩
    rw [reconstruction_integral, hsum, if_pos hne, hsa, hsb]
    ring

/-- The interval query on a non-degenerate interval that ends before `1`, for at least two
bins: it returns the positional wavelength and the integral of the reconstruction over `r`
divided by the length of `r`. -/
theorem call_Interval_eq (s : Spectrum) (hN : 2 ≤ s.size) (r : Interval)
    (h0 : 0 ≤ r.min) (hlt : r.min < r.max) (h1 : r.max < 1) :
    (LinearInterpolator.mk s).call_Interval r =
      .ok ⟨avg r s.lambda_min s.lambda_max,
           reconstruction_integral s r / (r.max - r.min)⟩ := by
  rw [call_Interval_of_weighted_sums _ r h0 hlt.ne h1.le, weighted_sums_eq s hN r h0 hlt h1]

/-- The interval query on a non-degenerate interval that ends exactly at `1`, for at least
two bins: `max_i` is `size()-1`, and `bin_average(max_i)` reads `(*spec)[size()]`. -/
theorem call_Interval_max_one (s : Spectrum) (hN : 2 ≤ s.size) (r : Interval)
    (h0 : 0 ≤ r.min) (hlt : r.min < r.max) (h1 : r.max = 1) :
    (LinearInterpolator.mk s).call_Interval r = .error .undefined_behaviour := by
  have hsz := s.size_fits
  have hm : size_minus_1 s = s.size - 1 := size_minus_1_eq s (by omega)
  have hnpos : (0 : ℚ) < ((s.size - 1 : ℕ) : ℚ) := by
    have : 0 < s.size - 1 := by omega
    exact_mod_cast this
  obtain ⟨ka, hka, hkan, hale, halt⟩ :=
    int_of_float_mul_lt r.min (s.size - 1) h0 (by linarith) (by omega)
  have hkb : int_of_float (r.max * ((s.size - 1 : ℕ) : ℚ)) = ((s.size - 1 : ℕ) : ℤ) := by
    rw [h1, one_mul, int_of_float_nonneg _ hnpos.le]
    exact Int.floor_natCast _
  have sa_min : (segment s ka).min ≤ r.min := by
    unfold segment; simp only; rw [div_le_iff₀ hnpos]; exact hale
  have sa_max : r.min < (segment s ka).max := by
    unfold segment; simp only; rw [lt_div_iff₀ hnpos]; exact halt
  have hoa := intersection_of_le (segment s ka) r (by
    rw [max_eq_right sa_min]; exact le_min sa_max.le hlt.le)
  have hfirst := bin_average_eq s hN r ka (by omega) _ hoa
  have hne : (ka : ℤ) ≠ ((s.size - 1 : ℕ) : ℤ) := by
    have : ka ≠ s.size - 1 := by omega
    exact_mod_cast this
  -- the last bin: the overlap is the single point `1`, the second read is out of range
  have hlast : (LinearInterpolator.mk s).bin_average (1 / ((s.size - 1 : ℕ) : ℚ)) r
      ((s.size - 1 : ℕ) : ℤ) = .error .undefined_behaviour := by
    have e0 : size_t_of_int ((s.size - 1 : ℕ) : ℤ) = s.size - 1 :=
      size_t_of_int_natCast _ (by unfold Spectrum.size at *; omega)
    have e1 : size_t_of_int (((s.size - 1 : ℕ) : ℤ) + 1) = s.size := by
      have := size_t_of_int_natCast (s.size - 1 + 1) (by unfold Spectrum.size at *; omega)
      rw [Nat.cast_succ, Nat.sub_add_cancel (by omega)] at this
      exact this
    have hov : intersection ⟨(((s.size - 1 : ℕ) : ℤ) : ℚ) * (1 / ((s.size - 1 : ℕ) : ℚ)),
        (((s.size - 1 : ℕ) : ℤ) : ℚ) * (1 / ((s.size - 1 : ℕ) : ℚ)) +
          1 / ((s.size - 1 : ℕ) : ℚ)⟩ r = some ⟨1, 1⟩ := by
      have e : (((s.size - 1 : ℕ) : ℤ) : ℚ) * (1 / ((s.size - 1 : ℕ) : ℚ)) = 1 := by
        rw [Int.cast_natCast]; exact mul_one_div_cancel hnpos.ne'
      have hd : (0 : ℚ) < 1 / ((s.size - 1 : ℕ) : ℚ) := by positivity
      rw [e, intersection_of_le]
      · simp only [h1]
        rw [max_eq_left (by linarith), min_eq_right (by linarith)]
      · simp only [h1]
        rw [max_eq_left (by linarith), min_eq_right (by linarith)]
    unfold bin_average
    simp only [hov, e0, e1, subscript_of_lt s (s.size - 1) (by omega),
      subscript_of_ge s s.size le_rfl, bind, Except.bind]
  unfold call_Interval
  simp only [hm, hka, hkb]
  rw [if_neg (not_lt.mpr h0), if_neg (not_lt.mpr h1.le), if_neg hlt.ne, hfirst]
  simp only [ne_eq, hne, not_false_eq_true, if_true, hlast, bind, Except.bind]


/-- The lambda `avg` is the straight-line interpolation at the midpoint of the interval. -/
theorem avg_eq_midpoint (i : Interval) (A B : ℚ) :
    avg i A B = A + (i.min + i.max) / 2 * (B - A) := by
  unfold avg
  norm_num
  ring

/-- The interval query on `Spectrum(400, 700, [1, 0, 1])` over `Interval(0.0, 0.5)`. -/
theorem call_Interval_vee_first_ramp :
    (LinearInterpolator.mk vee).call_Interval ⟨0, 0.5⟩ = .ok ⟨475, 0.5⟩ := by
  norm_num [call_Interval, vee, size_minus_1, Spectrum.size, int_of_float, bin_average,
    intersection, tukan.length, Spectrum.subscript, size_t_of_int, inner_bins, avg,
    Spectrum.lambda_min, Spectrum.lambda_max, bind, Except.bind, pure, Except.pure]


/-- A segment that starts at or after the end of `r` contributes nothing. -/
theorem segment_integral_right_le (s : Spectrum) (r : Interval) (k : ℕ)
    (h : r.max ≤ (segment s k).min) (hr : r.min ≤ r.max) : segment_integral s r k = 0 := by
  have hs := segment_min_le_max s k
  unfold segment_integral intersection
  split_ifs with hc
  · have h1 : Max.max (segment s k).min r.min = (segment s k).min :=
      max_eq_left (hr.trans h)
    have h2 : Min.min (segment s k).max r.max = r.max := min_eq_right (h.trans hs)
    rw [h1, h2] at hc
    have : (segment s k).min = r.max := le_antisymm hc h
    simp only [tukan.length, h1, h2]
    rw [this]
    ring
  · rfl

/-- The integral of the reconstruction over an interval that lies inside segment `k`. -/
theorem reconstruction_integral_single_segment (s : Spectrum) (r : Interval) (k : ℕ)
    (hk : k < s.size - 1) (h1 : (segment s k).min ≤ r.min) (hlt : r.min < r.max)
    (h2 : r.max ≤ (segment s k).max) :
    reconstruction_integral s r =
      (r.max - r.min) * ((reconstruction s k r.min + reconstruction s k r.max) / 2) := by
  unfold reconstruction_integral
  rw [Finset.sum_eq_single k]
  · unfold segment_integral
    rw [intersection_of_le _ _ (by
      rw [max_eq_right h1, min_eq_right h2]; exact hlt.le)]
    simp only [tukan.length]
    rw [max_eq_right h1, min_eq_right h2]
  · intro j _ hjk
    rcases Nat.lt_or_gt_of_ne hjk with hj | hj
    · exact segment_integral_left s r j
        ((segment_max_le_min s j k (by omega)).trans h1) hlt.le (segment_min_le_max s j)
    · exact segment_integral_right_le s r j
        (h2.trans (segment_max_le_min s k j (by omega))) hlt.le
  · intro hk'
    exact absurd (Finset.mem_range.mpr hk) hk'

/-- The interval query on an interval inside segment `k` that ends before `1`: the amplitude
is the trapezoid average of `bin[k]` and `bin[k+1]` over the bin-local end points. -/
theorem call_Interval_single_bin (s : Spectrum) (hN : 2 ≤ s.size) (r : Interval) (k : ℕ)
    (hk : k < s.size - 1) (h1 : (segment s k).min ≤ r.min) (hlt : r.min < r.max)
    (h2 : r.max ≤ (segment s k).max) (hmax : r.max < 1) :
    (LinearInterpolator.mk s).call_Interval r =
      .ok ⟨avg r s.lambda_min s.lambda_max,
           avg ⟨(r.min - (k : ℚ) / ((s.size - 1 : ℕ) : ℚ)) * ((s.size - 1 : ℕ) : ℚ),
                (r.max - (k : ℚ) / ((s.size - 1 : ℕ) : ℚ)) * ((s.size - 1 : ℕ) : ℚ)⟩
             (s.bins_.getD k 0) (s.bins_.getD (k + 1) 0)⟩ := by
  have hn0 : ((s.size - 1 : ℕ) : ℚ) ≠ 0 := Nat.cast_ne_zero.mpr (by omega)
  have h0 : 0 ≤ r.min := by
    refine le_trans ?_ h1
    unfold segment; simp only; positivity
  rw [call_Interval_eq s hN r h0 hlt hmax,
    reconstruction_integral_single_segment s r k hk h1 hlt h2]
  have hw : r.max - r.min ≠ 0 := by linarith
  simp only [Except.ok.injEq, SpectrumSample.mk.injEq, true_and]
  rw [mul_div_assoc, mul_comm, div_mul_cancel₀ _ hw]
  unfold avg reconstruction
  simp only
  generalize ((s.size - 1 : ℕ) : ℚ) = n at hn0
  field_simp
  ring


/-! ## The interval query against the specification -/

/-- C1, at an interval that ends at `1`: on `Spectrum(400, 700, [1, 0, 1])` the interval query
over `Interval(0.25, 1.0)` returns no amplitude to compare with the integral of the
reconstruction; `bin_average(max_i)` reads `(*spec)[3]` of a three-bin spectrum. -/
theorem call_Interval_vee_quarter_to_one_undefined :
    (LinearInterpolator.mk vee).call_Interval ⟨0.25, 1⟩ = .error .undefined_behaviour ∧
    reconstruction_integral vee ⟨0.25, 1⟩ = 5 / 16 := by
  constructor
  · exact call_Interval_max_one vee (by decide) ⟨0.25, 1⟩ (by norm_num) (by norm_num) rfl
  · norm_num [reconstruction_integral, vee, Spectrum.size, Finset.sum_range_succ,
      segment_integral, segment, intersection, tukan.length, reconstruction]

/-- C4, at an interval inside the last bin that ends at `1`: on `Spectrum(400, 700, [1, 0, 1])`
with `k = 1` the interval query over `Interval(0.75, 1.0)` returns no amplitude;
`bin_average(max_i)` reads `(*spec)[3]` of a three-bin spectrum. -/
theorem call_Interval_vee_last_bin_undefined :
    (LinearInterpolator.mk vee).call_Interval ⟨0.75, 1⟩ = .error .undefined_behaviour := by
  norm_num [call_Interval, vee, size_minus_1, Spectrum.size, int_of_float, bin_average,
    intersection, tukan.length, Spectrum.subscript, size_t_of_int, inner_bins, avg,
    Spectrum.lambda_min, Spectrum.lambda_max, bind, Except.bind, pure, Except.pure, Int.toNat]

/-- C5, the whole domain: for every spectrum with at least two bins the interval query over
`[0,1]` returns no sample; `bin_average(max_i)` reads `(*spec)[size()]`. -/
theorem call_Interval_whole_domain_undefined (s : Spectrum) (hN : 2 ≤ s.size) :
    (LinearInterpolator.mk s).call_Interval ⟨0, 1⟩ = .error .undefined_behaviour :=
  call_Interval_max_one s hN ⟨0, 1⟩ le_rfl (by norm_num) rfl

/-- C5 on the four-bin spectrum `Spectrum(400, 700, [1, 2, 3, 4])`. -/
theorem call_Interval_whole_domain_undefined_witness :
    (LinearInterpolator.mk ⟨400, 700, [1, 2, 3, 4], by decide⟩).call_Interval ⟨0, 1⟩ =
      .error .undefined_behaviour :=
  call_Interval_whole_domain_undefined ⟨400, 700, [1, 2, 3, 4], by decide⟩ (by decide)

/-- C6, as the code computes it: on `Spectrum(400, 700, [1, 0, 1])` the interval query over
`Interval(0.0, 0.5)` returns the amplitude `0.5`, the mean of the whole ramp from 1 to 0. -/
theorem call_Interval_vee_first_ramp_amplitude :
    ∃ x, (LinearInterpolator.mk vee).call_Interval ⟨0, 0.5⟩ = .ok x ∧ x.amplitude = 0.5 :=
  ⟨_, call_Interval_vee_first_ramp, rfl⟩

/-- C6 as stated fails: on `Spectrum(400, 700, [1, 0, 1])` the interval query over
`Interval(0.0, 0.5)` does not return the amplitude `0.75`. -/
theorem call_Interval_vee_first_ramp_not_three_quarters :
    ¬ ∃ x, (LinearInterpolator.mk vee).call_Interval ⟨0, 0.5⟩ = .ok x ∧ x.amplitude = 0.75 := by
  rintro ⟨x, hx, ha⟩
  rw [call_Interval_vee_first_ramp] at hx
  cases hx
  norm_num at ha

/-- C7: on `Spectrum(380, 730, [0.0, 1.0])` the interval query over `Interval(0.0, 1.0)`
returns no sample; `bin_average(max_i)` reads `(*spec)[2]` of a two-bin spectrum. -/
theorem call_Interval_ramp_whole_undefined :
    (LinearInterpolator.mk ramp).call_Interval ⟨0, 1⟩ = .error .undefined_behaviour := by
  norm_num [call_Interval, ramp, size_minus_1, Spectrum.size, int_of_float, bin_average,
    intersection, tukan.length, Spectrum.subscript, size_t_of_int, inner_bins, avg,
    Spectrum.lambda_min, Spectrum.lambda_max, bind, Except.bind, pure, Except.pure, Int.toNat]

/-- C9: the interval query on the degenerate interval `[p,p]` has the outcome of the point
query at `p`: for `p` in `[0,1]` the two calls agree (sample or failure alike), and for `p < 0`
or `p > 1` both fail with a domain error. -/
theorem call_Interval_degenerate (s : Spectrum) (p : ℚ) :
    (0 ≤ p → p ≤ 1 →
      (LinearInterpolator.mk s).call_Interval ⟨p, p⟩ = (LinearInterpolator.mk s).call_float p) ∧
    (p < 0 ∨ p > 1 →
      (∃ e, (LinearInterpolator.mk s).call_float p = .error e ∧ e.is_domain_error = true) ∧
      (∃ e, (LinearInterpolator.mk s).call_Interval ⟨p, p⟩ = .error e ∧
        e.is_domain_error = true)) := by
  constructor
  · intro h0 h1
    unfold call_Interval
    simp only [if_neg (not_lt.mpr h0), if_neg (not_lt.mpr h1), if_true]
  · rintro (h | h)
    · exact ⟨⟨.float_lt_0, by simp [call_float, h], rfl⟩,
        ⟨.interval_lt_0, by simp [call_Interval, h], rfl⟩⟩
    · have hn : ¬ p < 0 := by linarith
      exact ⟨⟨.float_gt_1, by simp [call_float, h, hn], rfl⟩,
        ⟨.interval_gt_1, by simp [call_Interval, h, hn], rfl⟩⟩

/-- C9 on `Spectrum(400, 700, [1, 0, 1])`: the degenerate interval `[0.25, 0.25]` gives the
sample of the point query at `0.25`, and `[2, 2]` and the point `2` are both domain errors. -/
theorem call_Interval_degenerate_witness :
    (LinearInterpolator.mk vee).call_Interval ⟨1 / 4, 1 / 4⟩ =
        (LinearInterpolator.mk vee).call_float (1 / 4) ∧
    (LinearInterpolator.mk vee).call_float (1 / 4) = .ok ⟨475, 1 / 2⟩ ∧
    (∃ e, (LinearInterpolator.mk vee).call_float 2 = .error e ∧ e.is_domain_error = true) ∧
    (∃ e, (LinearInterpolator.mk vee).call_Interval ⟨2, 2⟩ = .error e ∧
      e.is_domain_error = true) := by
  refine ⟨(call_Interval_degenerate vee (1 / 4)).1 (by norm_num) (by norm_num), ?_,
    ((call_Interval_degenerate vee 2).2 (Or.inr (by norm_num))).1,
    ((call_Interval_degenerate vee 2).2 (Or.inr (by norm_num))).2⟩
  norm_num [call_float, vee, size_minus_1, Spectrum.size, int_of_float,
    Spectrum.subscript, size_t_of_int, Spectrum.lambda_min, Spectrum.lambda_max, bind,
    Except.bind, pure, Except.pure, Int.toNat]

/-! ## The wavelength query, the guards of the interval query and the checked access -/

/-- C11: the wavelength query fails with a domain error whenever `g < lambda_min` or
`g > lambda_max` (no clamping), and for `lambda_min <= g <= lambda_max` its outcome is that of
the point query at `f = (g - lambda_min)/(lambda_max - lambda_min)`. -/
theorem call_Nanometer_domain_or_delegates (s : Spectrum) (g : Nanometer) :
    (g < s.lambda_min ∨ g > s.lambda_max →
      ∃ e, (LinearInterpolator.mk s).call_Nanometer g = .error e ∧
        e.is_domain_error = true) ∧
    (s.lambda_min ≤ g → g ≤ s.lambda_max →
      (LinearInterpolator.mk s).call_Nanometer g =
        (LinearInterpolator.mk s).call_float
          ((g - s.lambda_min) / (s.lambda_max - s.lambda_min))) := by
  constructor
  · intro h
    by_cases hlo : g < s.lambda_min
    · exact ⟨.nanometer_lt_lambda_min, by simp [call_Nanometer, hlo], rfl⟩
    · have hhi : g > s.lambda_max := h.resolve_left hlo
      exact ⟨.nanometer_gt_lambda_max, by simp [call_Nanometer, hlo, hhi], rfl⟩
  · intro h0 h1
    unfold call_Nanometer
    simp only [if_neg (not_lt.mpr h0), if_neg (not_lt.mpr h1)]

/-- C11 on `Spectrum(380, 730, [0.0, 1.0])`: `379` and `731` are domain errors, and `467.5`
gives the sample of the point query at `0.25`. -/
theorem call_Nanometer_domain_or_delegates_witness :
    (∃ e, (LinearInterpolator.mk ramp).call_Nanometer 379 = .error e ∧
      e.is_domain_error = true) ∧
    (∃ e, (LinearInterpolator.mk ramp).call_Nanometer 731 = .error e ∧
      e.is_domain_error = true) ∧
    (LinearInterpolator.mk ramp).call_Nanometer 467.5 =
      (LinearInterpolator.mk ramp).call_float 0.25 := by
  refine ⟨(call_Nanometer_domain_or_delegates ramp 379).1 (Or.inl (by norm_num [ramp,
      Spectrum.lambda_min])),
    (call_Nanometer_domain_or_delegates ramp 731).1 (Or.inr (by norm_num [ramp,
      Spectrum.lambda_max])), ?_⟩
  have h := (call_Nanometer_domain_or_delegates ramp 467.5).2
    (by norm_num [ramp, Spectrum.lambda_min]) (by norm_num [ramp, Spectrum.lambda_max])
  rw [h]
  norm_num [ramp, Spectrum.lambda_min, Spectrum.lambda_max]

/-- C12: for `lambda_min < lambda_max` and at least two bins, the wavelength query at
`lambda_min` returns the sample of the point query at `0.0`, and at `lambda_max` the sample of
the point query at `1.0`. -/
theorem call_Nanometer_at_boundaries (s : Spectrum) (hl : s.lambda_min < s.lambda_max)
    (hN : 2 ≤ s.size) :
    (∃ x, (LinearInterpolator.mk s).call_Nanometer s.lambda_min = .ok x ∧
      (LinearInterpolator.mk s).call_float 0 = .ok x) ∧
    (∃ x, (LinearInterpolator.mk s).call_Nanometer s.lambda_max = .ok x ∧
      (LinearInterpolator.mk s).call_float 1 = .ok x) := by
  have hne : s.lambda_max - s.lambda_min ≠ 0 := by linarith
  constructor
  · refine ⟨_, ?_, call_float_zero s (by omega)⟩
    unfold call_Nanometer
    simp only [if_neg (lt_irrefl _), if_neg (not_lt.mpr hl.le), sub_self, zero_div]
    exact call_float_zero s (by omega)
  · refine ⟨_, ?_, call_float_one s (by omega)⟩
    unfold call_Nanometer
    simp only [if_neg (not_lt.mpr hl.le), if_neg (lt_irrefl _), div_self hne]
    exact call_float_one s (by omega)

/-- C12 on `Spectrum(400, 700, [1, 0, 1])`: the wavelength `400` gives `(400, 1)` and the
wavelength `700` gives `(700, 1)`, as the point query does at `0` and `1`. -/
theorem call_Nanometer_at_boundaries_witness :
    (∃ x, (LinearInterpolator.mk vee).call_Nanometer 400 = .ok x ∧
      (LinearInterpolator.mk vee).call_float 0 = .ok x) ∧
    (∃ x, (LinearInterpolator.mk vee).call_Nanometer 700 = .ok x ∧
      (LinearInterpolator.mk vee).call_float 1 = .ok x) :=
  call_Nanometer_at_boundaries vee (by norm_num [vee, Spectrum.lambda_min,
    Spectrum.lambda_max]) (by decide)

/-- C13: for `r.min < 0` or `r.max > 1` the interval query fails with a domain error; no
sample is returned. -/
theorem call_Interval_domain_error (s : Spectrum) (r : Interval)
    (h : r.min < 0 ∨ r.max > 1) :
    (∃ e, (LinearInterpolator.mk s).call_Interval r = .error e ∧
      e.is_domain_error = true) ∧
    ∀ x, (LinearInterpolator.mk s).call_Interval r ≠ .ok x := by
  have key : ∃ e, (LinearInterpolator.mk s).call_Interval r = .error e ∧
      e.is_domain_error = true := by
    by_cases hlo : r.min < 0
    · exact ⟨.interval_lt_0, by simp [call_Interval, hlo], rfl⟩
    · have hhi : r.max > 1 := h.resolve_left hlo
      exact ⟨.interval_gt_1, by simp [call_Interval, hlo, hhi], rfl⟩
  refine ⟨key, ?_⟩
  obtain ⟨e, he, -⟩ := key
  intro x hx
  rw [he] at hx
  cases hx

/-- C13 on `Spectrum(400, 700, [1, 0, 1])` over `Interval(0.5, 1.5)`. -/
theorem call_Interval_domain_error_witness :
    (∃ e, (LinearInterpolator.mk vee).call_Interval ⟨1 / 2, 3 / 2⟩ = .error e ∧
      e.is_domain_error = true) ∧
    ∀ x, (LinearInterpolator.mk vee).call_Interval ⟨1 / 2, 3 / 2⟩ ≠ .ok x :=
  call_Interval_domain_error vee ⟨1 / 2, 3 / 2⟩ (Or.inr (by norm_num))

/-- C14: for every index `i < N` the checked access `at(i)` returns the value of the
unchecked `operator[](i)`, and for every `i >= N` it fails with the out-of-range error. -/
theorem at_checked (s : Spectrum) (i : ℕ) :
    (i < s.size → s.at i = s.subscript i ∧ s.at i = .ok (s.bins_.getD i 0)) ∧
    (i ≥ s.size → s.at i = .error .at_out_of_range) := by
  constructor
  · intro h
    have e : s.at i = s.subscript i := by
      unfold Spectrum.at
      rw [if_neg (by omega)]
    exact ⟨e, e.trans (subscript_of_lt s i h)⟩
  · intro h
    unfold Spectrum.at
    rw [if_pos (Or.inr h)]

/-- C14 on `Spectrum(400, 700, [1, 0, 1])`: `at(2)` is `1`, and `at(3)` is out of range. -/
theorem at_checked_witness :
    (vee.at 2 = vee.subscript 2 ∧ vee.at 2 = .ok 1) ∧ vee.at 3 = .error .at_out_of_range := by
  refine ⟨?_, (at_checked vee 3).2 (by decide)⟩
  have h := (at_checked vee 2).1 (by decide)
  exact ⟨h.1, by rw [h.2]; simp [vee]⟩

/-! ## The constructor -/

/-- The copy loop overwrites the entries `i, ..., i+count-1` of the storage with those of the
source and leaves the others alone. -/
theorem copy_bins_getElem_opt (bins : List ℚ) (count : ℕ) :
    ∀ (i : ℕ) (dst : List ℚ) (j : ℕ), dst.length = bins.length → i + count ≤ bins.length →
      (copy_bins bins count i dst)[j]? =
        if i ≤ j ∧ j < i + count then bins[j]? else dst[j]? := by
  induction count with
  | zero =>
    intro i dst j _ _
    have : ¬ (i ≤ j ∧ j < i + 0) := by omega
    rw [if_neg this]
    rfl
  | succ c ih =>
    intro i dst j hlen hle
    have hi : i < bins.length := by omega
    unfold copy_bins
    rw [ih (i + 1) _ j (by simp [hlen]) (by omega)]
    by_cases h1 : i + 1 ≤ j ∧ j < i + 1 + c
    · rw [if_pos h1, if_pos (by omega)]
    · rw [if_neg h1]
      by_cases h2 : i = j
      · subst h2
        rw [if_pos (by omega), List.getElem?_set_self (by omega),
          List.getD_eq_getElem?_getD, List.getElem?_eq_getElem hi]
        rfl
      · rw [List.getElem?_set_ne h2, if_neg (by omega)]

/-- The storage of a constructed spectrum is the input sequence. -/
theorem construct_bins (lambda_min lambda_max : Nanometer) (bins : List ℚ)
    (h : bins.length < 2 ^ 64) :
    (Spectrum.construct lambda_min lambda_max bins h).bins_ = bins := by
  apply List.ext_getElem?
  intro j
  show (copy_bins bins bins.length 0 (List.replicate bins.length 0))[j]? = bins[j]?
  rw [copy_bins_getElem_opt bins bins.length 0 _ j (by simp) (by omega)]
  by_cases hj : j < bins.length
  · rw [if_pos (by omega)]
  · rw [if_neg (by omega), List.getElem?_eq_none (by simpa using hj),
      List.getElem?_eq_none (by omega)]

/-- C15: for every pair of wavelengths (ordered or not) and every input sequence, the
constructed spectrum has `size() = length(bins)`, `at(i) = bins[i]` for every
`i < length(bins)`, and `lambda_min()`, `lambda_max()` return the two arguments unchanged. -/
theorem construct_copies (lambda_min lambda_max : Nanometer) (bins : List ℚ)
    (h : bins.length < 2 ^ 64) :
    (Spectrum.construct lambda_min lambda_max bins h).size = bins.length ∧
    (∀ i (hi : i < bins.length),
      (Spectrum.construct lambda_min lambda_max bins h).at i = .ok (bins.get ⟨i, hi⟩)) ∧
    (Spectrum.construct lambda_min lambda_max bins h).lambda_min = lambda_min ∧
    (Spectrum.construct lambda_min lambda_max bins h).lambda_max = lambda_max := by
  have hb := construct_bins lambda_min lambda_max bins h
  have hsize : (Spectrum.construct lambda_min lambda_max bins h).size = bins.length := by
    unfold Spectrum.size; rw [hb]
  refine ⟨hsize, ?_, rfl, rfl⟩
  intro i hi
  unfold Spectrum.at
  rw [if_neg (by omega), subscript_of_lt _ i (by omega), hb, List.getD_eq_getElem?_getD,
    List.getElem?_eq_getElem hi]
  rfl

/-- C15 with `lambda_min > lambda_max`: constructing from `(700, 400, [3, 1, 2])` gives three
bins, `at(1) = 1`, and the wavelengths `700` and `400` as passed. -/
theorem construct_copies_witness :
    (Spectrum.construct 700 400 [3, 1, 2] (by decide)).size = 3 ∧
    (Spectrum.construct 700 400 [3, 1, 2] (by decide)).at 1 = .ok 1 ∧
    (Spectrum.construct 700 400 [3, 1, 2] (by decide)).lambda_min = 700 ∧
    (Spectrum.construct 700 400 [3, 1, 2] (by decide)).lambda_max = 400 := by
  have h := construct_copies 700 400 [3, 1, 2] (by decide)
  exact ⟨h.1, h.2.1 1 (by decide), h.2.2.1, h.2.2.2⟩

/-! ## Anchors, the index of the point query and its consistency guard -/

/-- C16: for at least two bins and every bin index `k` in `[0, N-1]`, the point query at the
anchor `f = k/(N-1)` returns the amplitude `bin[k]` and the wavelength
`lambda_min + (k/(N-1))*(lambda_max - lambda_min)`. -/
theorem call_float_anchor (s : Spectrum) (hN : 2 ≤ s.size) (k : ℕ) (hk : k < s.size) :
    (LinearInterpolator.mk s).call_float ((k : ℚ) / ((s.size - 1 : ℕ) : ℚ)) =
      .ok ⟨s.lambda_min +
            (k : ℚ) / ((s.size - 1 : ℕ) : ℚ) * (s.lambda_max - s.lambda_min),
           s.bins_.getD k 0⟩ := by
  have hnpos : (0 : ℚ) < ((s.size - 1 : ℕ) : ℚ) := by
    have : 0 < s.size - 1 := by omega
    exact_mod_cast this
  rcases Nat.eq_zero_or_pos k with h0 | h0
  · subst h0
    simp only [Nat.cast_zero, zero_div, zero_mul, add_zero]
    exact call_float_zero s (by omega)
  rcases Nat.lt_or_ge k (s.size - 1) with h1 | h1
  · have hf0 : (0 : ℚ) < (k : ℚ) / ((s.size - 1 : ℕ) : ℚ) := by
      have : (0 : ℚ) < k := by exact_mod_cast h0
      positivity
    have hf1 : (k : ℚ) / ((s.size - 1 : ℕ) : ℚ) < 1 := by
      rw [div_lt_one hnpos]; exact_mod_cast h1
    obtain ⟨j, hj, -, hcall⟩ := call_float_interior s _ hN hf0 hf1
    have hmul : (k : ℚ) / ((s.size - 1 : ℕ) : ℚ) * ((s.size - 1 : ℕ) : ℚ) = k :=
      div_mul_cancel₀ _ hnpos.ne'
    rw [hmul] at hj hcall
    have hjk : j = k := by
      have : (j : ℤ) = (k : ℤ) := by rw [hj]; exact Int.floor_natCast k
      exact_mod_cast this
    subst hjk
    rw [hcall]
    simp only [Except.ok.injEq, SpectrumSample.mk.injEq, true_and]
    ring
  · have hk' : k = s.size - 1 := by omega
    subst hk'
    rw [div_self hnpos.ne', one_mul]
    have := call_float_one s (by omega)
    rw [this]
    simp only [Except.ok.injEq, SpectrumSample.mk.injEq, and_true]
    ring

/-- C16, the concrete scenario: `Spectrum(400, 700, [1, 0, 1])` at `f = 0.5` returns the
amplitude `0` (and the wavelength `550`). -/
theorem call_float_anchor_witness :
    (LinearInterpolator.mk vee).call_float 0.5 = .ok ⟨550, 0⟩ := by
  have h := call_float_anchor vee (by decide) 1 (by decide)
  norm_num [vee, Spectrum.size, Spectrum.lambda_min, Spectrum.lambda_max] at h
  norm_num [vee]
  exact h

/-- C17: over exact arithmetic, for at least two bins and `0 < f < 1`, the index
`i = floor(f*(N-1))` is the `int` the code computes and satisfies `0 <= i` and `i + 1 < N`;
the guard `size_t(i+1) >= size()` is false, both reads `bin[i]`, `bin[i+1]` are inside the
storage, and the call returns a sample. -/
theorem call_float_index_in_bounds (s : Spectrum) (f : ℚ) (hN : 2 ≤ s.size)
    (h0 : 0 < f) (h1 : f < 1) :
    let i : ℤ := ⌊f * ((s.size - 1 : ℕ) : ℚ)⌋
    int_of_float (f * (size_minus_1 s : ℚ)) = i ∧ 0 ≤ i ∧ i + 1 < (s.size : ℤ) ∧
    ¬ (size_t_of_int (i + 1) ≥ s.size) ∧
    (∃ a, s.subscript (size_t_of_int i) = .ok a) ∧
    (∃ b, s.subscript (size_t_of_int (i + 1)) = .ok b) ∧
    (∃ x, (LinearInterpolator.mk s).call_float f = .ok x) := by
  intro i
  have hsz := s.size_fits
  obtain ⟨k, hk, hkn, hcall⟩ := call_float_interior s f hN h0 h1
  have hi : i = (k : ℤ) := hk.symm
  have e1 : size_t_of_int ((k : ℤ) + 1) = k + 1 := by
    have := size_t_of_int_natCast (k + 1) (by unfold Spectrum.size at *; omega)
    simpa using this
  have e0 : size_t_of_int (k : ℤ) = k :=
    size_t_of_int_natCast k (by unfold Spectrum.size at *; omega)
  rw [hi, e0, e1, size_minus_1_eq s (by omega)]
  refine ⟨?_, by omega, by omega, by omega, ⟨_, subscript_of_lt s k (by omega)⟩,
    ⟨_, subscript_of_lt s (k + 1) hkn⟩, ⟨_, hcall⟩⟩
  rw [int_of_float_nonneg _ (by positivity)]
  exact hk.symm

/-- C17 on `Spectrum(400, 700, [1, 0, 1])` at `f = 0.9`: the index is `1`, and `1 + 1 < 3`. -/
theorem call_float_index_in_bounds_witness :
    int_of_float ((9 / 10 : ℚ) * (size_minus_1 vee : ℚ)) = 1 ∧
    ∃ x, (LinearInterpolator.mk vee).call_float (9 / 10) = .ok x := by
  have h := call_float_index_in_bounds vee (9 / 10) (by decide) (by norm_num) (by norm_num)
  have hfl : ⌊(9 / 10 : ℚ) * ((vee.size - 1 : ℕ) : ℚ)⌋ = 1 := by
    norm_num [vee, Spectrum.size, Int.floor_eq_iff]
  exact ⟨by rw [h.1, hfl], h.2.2.2.2.2.2⟩

/-- The point query strictly inside the domain on a spectrum with exactly one bin:
`size()-1` is `0`, the index is `0`, and the guard `size_t(i+1) >= size()` throws. -/
theorem call_float_single_bin (s : Spectrum) (hN : s.size = 1) (f : ℚ)
    (h0 : 0 < f) (h1 : f < 1) :
    (LinearInterpolator.mk s).call_float f = .error .crap := by
  have hm : size_minus_1 s = 0 := by rw [size_minus_1_eq s (by omega), hN]
  have hi : int_of_float (f * ((0 : ℕ) : ℚ)) = 0 := by
    simp [int_of_float]
  have e1 : size_t_of_int ((0 : ℤ) + 1) = 1 := by
    have := size_t_of_int_natCast 1 (by norm_num)
    simpa using this
  unfold call_float
  simp only [hm, hi, e1]
  rw [if_neg (not_lt.mpr h0.le), if_neg (not_lt.mpr h1.le), if_neg h0.ne', if_neg h1.ne,
    if_pos (by omega)]

/-- C18, as the code behaves: there is no clamping.  For every `f` in `[0,1]` the point query
returns a sample when the spectrum has at least two bins, or one bin and `f` is `0` or `1`
(over exact arithmetic the guard is then never met); on a spectrum with exactly one bin every
`0 < f < 1` fails with the internal-consistency error. -/
theorem call_float_consistency_guard (s : Spectrum) (f : ℚ) (h0 : 0 ≤ f) (h1 : f ≤ 1) :
    (2 ≤ s.size ∨ (s.size = 1 ∧ (f = 0 ∨ f = 1)) →
      ∃ x, (LinearInterpolator.mk s).call_float f = .ok x) ∧
    (s.size = 1 → 0 < f → f < 1 → (LinearInterpolator.mk s).call_float f = .error .crap) := by
  refine ⟨?_, fun hN hf0 hf1 => call_float_single_bin s hN f hf0 hf1⟩
  intro h
  have hpos : 1 ≤ s.size := by
    rcases h with h | h
    · omega
    · omega
  rcases h0.eq_or_lt with hz | hz
  · exact ⟨_, hz ▸ call_float_zero s hpos⟩
  rcases h1.eq_or_lt with ho | ho
  · exact ⟨_, ho ▸ call_float_one s hpos⟩
  rcases h with h | ⟨-, h | h⟩
  · obtain ⟨k, -, -, hc⟩ := call_float_interior s f h hz ho
    exact ⟨_, hc⟩
  · exact absurd h hz.ne'
  · exact absurd h ho.ne

/-- C18 on the one-bin spectrum `Spectrum(400, 700, [1])`: `f = 1` returns `(700, 1)` and
`f = 0.5` fails with the internal-consistency error. -/
theorem call_float_consistency_guard_witness :
    (∃ x, (LinearInterpolator.mk ⟨400, 700, [1], by decide⟩).call_float 1 = .ok x) ∧
    (LinearInterpolator.mk ⟨400, 700, [1], by decide⟩).call_float (1 / 2) = .error .crap :=
  ⟨(call_float_consistency_guard ⟨400, 700, [1], by decide⟩ 1 (by norm_num) le_rfl).1
      (Or.inr ⟨rfl, Or.inr rfl⟩),
   (call_float_consistency_guard ⟨400, 700, [1], by decide⟩ (1 / 2) (by norm_num)
      (by norm_num)).2 rfl (by norm_num) (by norm_num)⟩

/-- C18 as stated fails: on the non-empty spectrum `Spectrum(400, 700, [1])` the point query
at `f = 0.5` surfaces the internal-consistency error and returns no sample. -/
theorem call_float_one_bin_half_crap :
    (LinearInterpolator.mk ⟨400, 700, [1], by decide⟩).call_float (1 / 2) = .error .crap ∧
    ¬ ∃ x, (LinearInterpolator.mk ⟨400, 700, [1], by decide⟩).call_float (1 / 2) = .ok x := by
  have h : (LinearInterpolator.mk ⟨400, 700, [1], by decide⟩).call_float (1 / 2)
      = .error .crap := by
    norm_num [call_float, size_minus_1, Spectrum.size, int_of_float, size_t_of_int]
  refine ⟨h, ?_⟩
  rintro ⟨x, hx⟩
  rw [h] at hx
  cases hx

/-- C19: `a == b` holds exactly when the wavelengths are equal and the amplitudes are equal
(that is, when the two samples are the same value), and `a != b` is the negation of
`a == b`. -/
theorem operator_eq_iff (a b : SpectrumSample) :
    (a.operator_eq b = true ↔ a.wavelength = b.wavelength ∧ a.amplitude = b.amplitude) ∧
    (a.operator_eq b = true ↔ a = b) ∧
    a.operator_ne b = !(a.operator_eq b) ∧
    (a.operator_ne b = true ↔ ¬ (a.operator_eq b = true)) := by
  have h1 : a.operator_eq b = true ↔ a.wavelength = b.wavelength ∧ a.amplitude = b.amplitude := by
    unfold SpectrumSample.operator_eq
    simp
  refine ⟨h1, ?_, rfl, ?_⟩
  · rw [h1]
    constructor
    · rintro ⟨hw, ha⟩
      cases a; cases b
      simp only at hw ha
      rw [hw, ha]
    · rintro rfl
      exact ⟨rfl, rfl⟩
  · unfold SpectrumSample.operator_ne
    simp

/-! ## The inner bins: constant weight against the general helper -/

/-- Over exact arithmetic: for at least two bins and `0 <= r.min < r.max <= 1`, for both
boundary bins (the
`int` computed from `r.min*(size()-1)` and the one from `r.max*(size()-1)`) the closed
intersection of the bin's span `[bin*delta, bin*delta + delta]` with `r` is non-empty, and the
bin-local overlap has both components in `[0,1]` with `local.min <= local.max`. -/
theorem boundary_overlap_nonempty (s : Spectrum) (hN : 2 ≤ s.size) (r : Interval)
    (h0 : 0 ≤ r.min) (hlt : r.min < r.max) (_h1 : r.max ≤ 1) (bin : ℤ)
    (hbin : bin = int_of_float (r.min * (size_minus_1 s : ℚ)) ∨
      bin = int_of_float (r.max * (size_minus_1 s : ℚ))) :
    ∃ overlap_global : Interval,
      intersection ⟨bin * (1 / (size_minus_1 s : ℚ)),
        bin * (1 / (size_minus_1 s : ℚ)) + 1 / (size_minus_1 s : ℚ)⟩ r = some overlap_global ∧
      0 ≤ (overlap_global.min - bin * (1 / (size_minus_1 s : ℚ))) / (1 / (size_minus_1 s : ℚ)) ∧
      (overlap_global.min - bin * (1 / (size_minus_1 s : ℚ))) / (1 / (size_minus_1 s : ℚ)) ≤
        (overlap_global.max - bin * (1 / (size_minus_1 s : ℚ))) / (1 / (size_minus_1 s : ℚ)) ∧
      (overlap_global.max - bin * (1 / (size_minus_1 s : ℚ))) / (1 / (size_minus_1 s : ℚ)) ≤ 1
    := by
  have hm : size_minus_1 s = s.size - 1 := size_minus_1_eq s (by omega)
  have hnpos : (0 : ℚ) < ((s.size - 1 : ℕ) : ℚ) := by
    have : 0 < s.size - 1 := by omega
    exact_mod_cast this
  rw [hm] at hbin ⊢
  generalize ((s.size - 1 : ℕ) : ℚ) = n at hnpos hbin ⊢
  have hd : (0 : ℚ) < 1 / n := by positivity
  -- the span of the bin meets `r`
  have hmeet : Max.max ((bin : ℚ) * (1 / n)) r.min ≤
      Min.min ((bin : ℚ) * (1 / n) + 1 / n) r.max := by
    rcases hbin with hb | hb
    · have hfl : bin = ⌊r.min * n⌋ := by rw [hb, int_of_float_nonneg _ (by positivity)]
      have c1 : (bin : ℚ) ≤ r.min * n := by rw [hfl]; exact Int.floor_le _
      have c2 : r.min * n < (bin : ℚ) + 1 := by rw [hfl]; exact Int.lt_floor_add_one _
      have e1 : (bin : ℚ) * (1 / n) ≤ r.min := by
        rw [mul_one_div, div_le_iff₀ hnpos]; exact c1
      have e2 : r.min ≤ (bin : ℚ) * (1 / n) + 1 / n := by
        have : (bin : ℚ) * (1 / n) + 1 / n = ((bin : ℚ) + 1) / n := by ring
        rw [this, le_div_iff₀ hnpos]; exact c2.le
      rw [max_eq_right e1]
      exact le_min e2 hlt.le
    · have hfl : bin = ⌊r.max * n⌋ := by
        rw [hb, int_of_float_nonneg _ (mul_nonneg (by linarith) hnpos.le)]
      have c1 : (bin : ℚ) ≤ r.max * n := by rw [hfl]; exact Int.floor_le _
      have c2 : r.max * n < (bin : ℚ) + 1 := by rw [hfl]; exact Int.lt_floor_add_one _
      have e1 : (bin : ℚ) * (1 / n) ≤ r.max := by
        rw [mul_one_div, div_le_iff₀ hnpos]; exact c1
      have e2 : r.max ≤ (bin : ℚ) * (1 / n) + 1 / n := by
        have : (bin : ℚ) * (1 / n) + 1 / n = ((bin : ℚ) + 1) / n := by ring
        rw [this, le_div_iff₀ hnpos]; exact c2.le
      rw [min_eq_right e2]
      exact max_le e1 hlt.le
  refine ⟨_, intersection_of_le _ _ hmeet, ?_, ?_, ?_⟩
  · apply div_nonneg _ hd.le
    simp only [sub_nonneg]
    exact le_max_left _ _
  · apply div_le_div_of_nonneg_right _ hd.le
    simp only [sub_le_sub_iff_right]
    exact hmeet
  · rw [div_le_one hd]
    have : Min.min ((bin : ℚ) * (1 / n) + 1 / n) r.max ≤ (bin : ℚ) * (1 / n) + 1 / n :=
      min_le_left _ _
    simp only
    linarith

/-- Over exact arithmetic, on `Spectrum(400, 700, [1, 0, 1])` over `Interval(0.25, 1.0)`,
last bin (`bin = 2`):
the span `[1, 1.5]` meets `r` in the single point `1`, with local overlap `[0, 0]`. -/
theorem boundary_overlap_nonempty_witness :
    ∃ overlap_global : Interval,
      intersection ⟨(2 : ℤ) * (1 / (size_minus_1 vee : ℚ)),
        (2 : ℤ) * (1 / (size_minus_1 vee : ℚ)) + 1 / (size_minus_1 vee : ℚ)⟩ ⟨1 / 4, 1⟩
        = some overlap_global ∧
      0 ≤ (overlap_global.min - (2 : ℤ) * (1 / (size_minus_1 vee : ℚ))) /
        (1 / (size_minus_1 vee : ℚ)) ∧
      (overlap_global.min - (2 : ℤ) * (1 / (size_minus_1 vee : ℚ))) /
          (1 / (size_minus_1 vee : ℚ)) ≤
        (overlap_global.max - (2 : ℤ) * (1 / (size_minus_1 vee : ℚ))) /
          (1 / (size_minus_1 vee : ℚ)) ∧
      (overlap_global.max - (2 : ℤ) * (1 / (size_minus_1 vee : ℚ))) /
        (1 / (size_minus_1 vee : ℚ)) ≤ 1 :=
  boundary_overlap_nonempty vee (by decide) ⟨1 / 4, 1⟩ (by norm_num) (by norm_num) le_rfl 2
    (Or.inr (by norm_num [size_minus_1, vee, Spectrum.size, int_of_float]))

/-- C22, at an interval that ends at `1`: for at least two bins and `0 <= r.min < r.max = 1`
the last bin is `max_i = N-1`, the index `max_i + 1` read by `bin_average(max_i)` is `N`, which
is not strictly less than `N`; the unchecked read is outside the storage and the query
returns no sample. -/
theorem call_Interval_reads_past_end (s : Spectrum) (hN : 2 ≤ s.size) (r : Interval)
    (h0 : 0 ≤ r.min) (hlt : r.min < r.max) (h1 : r.max = 1) :
    size_t_of_int (int_of_float (r.max * (size_minus_1 s : ℚ)) + 1) = s.size ∧
    s.subscript (size_t_of_int (int_of_float (r.max * (size_minus_1 s : ℚ)) + 1)) =
      .error .undefined_behaviour ∧
    (LinearInterpolator.mk s).call_Interval r = .error .undefined_behaviour := by
  have hsz := s.size_fits
  have hm : size_minus_1 s = s.size - 1 := size_minus_1_eq s (by omega)
  have hkb : int_of_float (r.max * (size_minus_1 s : ℚ)) = ((s.size - 1 : ℕ) : ℤ) := by
    rw [h1, one_mul, hm, int_of_float_nonneg _ (Nat.cast_nonneg _)]
    exact Int.floor_natCast _
  have e1 : size_t_of_int (((s.size - 1 : ℕ) : ℤ) + 1) = s.size := by
    have := size_t_of_int_natCast (s.size - 1 + 1) (by unfold Spectrum.size at *; omega)
    rw [Nat.cast_succ, Nat.sub_add_cancel (by omega)] at this
    exact this
  rw [hkb, e1]
  exact ⟨rfl, subscript_of_ge s s.size le_rfl, call_Interval_max_one s hN r h0 hlt h1⟩

/-- C22 on `Spectrum(380, 730, [0.0, 1.0])` over `Interval(0.5, 1.0)`: the index read is `2`,
the size of the spectrum. -/
theorem call_Interval_reads_past_end_witness :
    size_t_of_int (int_of_float ((1 : ℚ) * (size_minus_1 ramp : ℚ)) + 1) = 2 ∧
    ramp.subscript 2 = .error .undefined_behaviour ∧
    (LinearInterpolator.mk ramp).call_Interval ⟨1 / 2, 1⟩ = .error .undefined_behaviour := by
  have h := call_Interval_reads_past_end ramp (by decide) ⟨1 / 2, 1⟩ (by norm_num)
    (by norm_num) rfl
  refine ⟨h.1, ?_, h.2.2⟩
  have h2 := h.2.1
  rw [h.1] at h2
  exact h2

/-- Over exact arithmetic: for at least two bins and `0 <= r.min < r.max < 1` the interval
query accumulates
`weight_total = r.max - r.min` (together with the integral of the reconstruction as the
amplitude sum); the weight is strictly positive, so the final division does not divide by
zero. -/
theorem weight_total_eq_length (s : Spectrum) (hN : 2 ≤ s.size) (r : Interval)
    (h0 : 0 ≤ r.min) (hlt : r.min < r.max) (h1 : r.max < 1) :
    ∃ total : ℚ × ℚ, (LinearInterpolator.mk s).weighted_sums r = .ok total ∧
      total.2 = r.max - r.min ∧ 0 < total.2 ∧
      (LinearInterpolator.mk s).call_Interval r =
        .ok ⟨avg r s.lambda_min s.lambda_max, total.1 / total.2⟩ := by
  refine ⟨_, weighted_sums_eq s hN r h0 hlt h1, rfl, ?_, ?_⟩
  · simp only; linarith
  · rw [call_Interval_of_weighted_sums _ r h0 hlt.ne h1.le, weighted_sums_eq s hN r h0 hlt h1]

/-- Over exact arithmetic, on `Spectrum(400, 700, [1, 0, 1])` over `Interval(0.25, 0.9)`: the
accumulated sums
are `(89/400, 13/20)`. -/
theorem weight_total_eq_length_witness :
    ∃ total : ℚ × ℚ, (LinearInterpolator.mk vee).weighted_sums ⟨1 / 4, 9 / 10⟩ = .ok total ∧
      total.2 = 13 / 20 ∧ 0 < total.2 := by
  obtain ⟨total, h1, h2, h3, -⟩ := weight_total_eq_length vee (by decide) ⟨1 / 4, 9 / 10⟩
    (by norm_num) (by norm_num) (by norm_num)
  refine ⟨total, h1, ?_, h3⟩
  rw [h2]
  norm_num

/-! ## The integral of the reconstruction: closed form, additivity, bounds, linearity -/

theorem segment_clamp_mem (s : Spectrum) (k : ℕ) (t : ℚ) :
    (segment s k).min ≤ segment_clamp s k t ∧ segment_clamp s k t ≤ (segment s k).max :=
  ⟨le_max_left _ _, max_le (segment_min_le_max s k) (min_le_left _ _)⟩

theorem segment_clamp_mono (s : Spectrum) (k : ℕ) (x y : ℚ) (h : x ≤ y) :
    segment_clamp s k x ≤ segment_clamp s k y :=
  max_le_max le_rfl (min_le_min le_rfl h)

/-- The contribution of segment `k` in closed form: the trapezoid between the two ends of `r`
clamped into the segment. -/
theorem segment_integral_eq_clamp (s : Spectrum) (r : Interval) (k : ℕ) (hr : r.min ≤ r.max) :
    segment_integral s r k =
      (segment_clamp s k r.max - segment_clamp s k r.min) *
        ((reconstruction s k (segment_clamp s k r.min) +
          reconstruction s k (segment_clamp s k r.max)) / 2) := by
  have hs := segment_min_le_max s k
  unfold segment_integral intersection segment_clamp
  split_ifs with hc
  · have a1 : r.min ≤ (segment s k).max :=
      (le_max_right _ _).trans (hc.trans (min_le_left _ _))
    have a2 : (segment s k).min ≤ Min.min (segment s k).max r.max :=
      (le_max_left _ _).trans hc
    simp only [tukan.length]
    rw [min_eq_right a1, max_eq_right a2]
  · have hc' := not_le.mp hc
    have key : Max.max (segment s k).min (Min.min (segment s k).max r.max) =
        Max.max (segment s k).min (Min.min (segment s k).max r.min) := by
      rcases lt_or_le r.max (segment s k).min with h | h
      · rw [max_eq_left ((min_le_right _ _).trans h.le),
          max_eq_left ((min_le_right _ _).trans (hr.trans h.le))]
      · have hq : (segment s k).max < r.min := by
          by_contra hcon
          have hcon' := not_lt.mp hcon
          exact absurd (max_le (le_min hs h) (le_min hcon' hr)) hc
        rw [min_eq_left (hq.le.trans hr), min_eq_left hq.le]
    simp only [key, sub_self, zero_mul]

/-- The trapezoids of a segment add up along a subdivided interval. -/
theorem segment_integral_add (s : Spectrum) (k : ℕ) (a b c : ℚ) (hab : a ≤ b) (hbc : b ≤ c) :
    segment_integral s ⟨a, b⟩ k + segment_integral s ⟨b, c⟩ k = segment_integral s ⟨a, c⟩ k := by
  rw [segment_integral_eq_clamp s ⟨a, b⟩ k hab, segment_integral_eq_clamp s ⟨b, c⟩ k hbc,
    segment_integral_eq_clamp s ⟨a, c⟩ k (hab.trans hbc)]
  simp only [reconstruction]
  ring

/-- The integral of the reconstruction is additive along a subdivided interval. -/
theorem reconstruction_integral_add (s : Spectrum) (a b c : ℚ) (hab : a ≤ b) (hbc : b ≤ c) :
    reconstruction_integral s ⟨a, b⟩ + reconstruction_integral s ⟨b, c⟩ =
      reconstruction_integral s ⟨a, c⟩ := by
  unfold reconstruction_integral
  rw [← Finset.sum_add_distrib]
  exact Finset.sum_congr rfl (fun k _ => segment_integral_add s k a b c hab hbc)

/-- Over exact arithmetic: additivity of the interval query. For at least two bins and
`0 <= a < b < c < 1`
the three queries return samples with
`(b-a)*E([a,b]).amplitude + (c-b)*E([b,c]).amplitude = (c-a)*E([a,c]).amplitude`, wherever
`b` lies. -/
theorem call_Interval_additive (s : Spectrum) (hN : 2 ≤ s.size) (a b c : ℚ)
    (h0 : 0 ≤ a) (hab : a < b) (hbc : b < c) (h1 : c < 1) :
    ∃ x y z, (LinearInterpolator.mk s).call_Interval ⟨a, b⟩ = .ok x ∧
      (LinearInterpolator.mk s).call_Interval ⟨b, c⟩ = .ok y ∧
      (LinearInterpolator.mk s).call_Interval ⟨a, c⟩ = .ok z ∧
      (b - a) * x.amplitude + (c - b) * y.amplitude = (c - a) * z.amplitude := by
  refine ⟨_, _, _, call_Interval_eq s hN ⟨a, b⟩ h0 hab (by simp only; linarith),
    call_Interval_eq s hN ⟨b, c⟩ (by simp only; linarith) hbc h1,
    call_Interval_eq s hN ⟨a, c⟩ h0 (hab.trans hbc) h1, ?_⟩
  simp only
  have e1 : b - a ≠ 0 := by linarith
  have e2 : c - b ≠ 0 := by linarith
  have e3 : c - a ≠ 0 := by linarith
  rw [mul_div_cancel₀ _ e1, mul_div_cancel₀ _ e2, mul_div_cancel₀ _ e3]
  exact reconstruction_integral_add s a b c hab.le hbc.le

/-- Over exact arithmetic, on `Spectrum(400, 700, [1, 0, 1])` with `a = 0.25`, `b = 0.5` (a
bin boundary) and
`c = 0.9`. -/
theorem call_Interval_additive_witness :
    ∃ x y z, (LinearInterpolator.mk vee).call_Interval ⟨1 / 4, 1 / 2⟩ = .ok x ∧
      (LinearInterpolator.mk vee).call_Interval ⟨1 / 2, 9 / 10⟩ = .ok y ∧
      (LinearInterpolator.mk vee).call_Interval ⟨1 / 4, 9 / 10⟩ = .ok z ∧
      (1 / 2 - 1 / 4) * x.amplitude + (9 / 10 - 1 / 2) * y.amplitude =
        (9 / 10 - 1 / 4) * z.amplitude :=
  call_Interval_additive vee (by decide) (1 / 4) (1 / 2) (9 / 10) (by norm_num) (by norm_num)
    (by norm_num) (by norm_num)

/-! ## The single-bin interval, the wavelength round trip, one bin, an inverted range -/

/-- Over exact arithmetic: for at least two bins, `k` in `[0, N-2]` and
`k/(N-1) <= r.min < r.max < (k+1)/(N-1)`,
the interval query returns the sample (wavelength and amplitude) that the point query returns
at the midpoint `(r.min + r.max)/2`. -/
theorem call_Interval_eq_call_float_midpoint (s : Spectrum) (hN : 2 ≤ s.size) (k : ℕ)
    (hk : k ≤ s.size - 2) (r : Interval)
    (h1 : (k : ℚ) / ((s.size - 1 : ℕ) : ℚ) ≤ r.min) (hlt : r.min < r.max)
    (h2 : r.max < ((k : ℚ) + 1) / ((s.size - 1 : ℕ) : ℚ)) :
    ∃ x, (LinearInterpolator.mk s).call_Interval r = .ok x ∧
      (LinearInterpolator.mk s).call_float ((r.min + r.max) / 2) = .ok x := by
  have hnpos : (0 : ℚ) < ((s.size - 1 : ℕ) : ℚ) := by
    have : 0 < s.size - 1 := by omega
    exact_mod_cast this
  have hq1 : ((k : ℚ) + 1) / ((s.size - 1 : ℕ) : ℚ) ≤ 1 := by
    rw [div_le_one hnpos]
    have : k + 1 ≤ s.size - 1 := by omega
    exact_mod_cast this
  have hp0 : (0 : ℚ) ≤ (k : ℚ) / ((s.size - 1 : ℕ) : ℚ) := by positivity
  have hI := call_Interval_single_bin s hN r k (by omega) h1 hlt h2.le (by linarith)
  -- the point query at the midpoint
  have hm0 : 0 < (r.min + r.max) / 2 := by linarith
  have hm1 : (r.min + r.max) / 2 < 1 := by linarith
  obtain ⟨j, hj, -, hcall⟩ := call_float_interior s _ hN hm0 hm1
  have hjk : j = k := by
    have c1 : (k : ℚ) ≤ (r.min + r.max) / 2 * ((s.size - 1 : ℕ) : ℚ) := by
      rw [div_le_iff₀ hnpos] at h1
      nlinarith
    have c2 : (r.min + r.max) / 2 * ((s.size - 1 : ℕ) : ℚ) < (k : ℚ) + 1 := by
      rw [lt_div_iff₀ hnpos] at h2
      nlinarith
    have : ⌊(r.min + r.max) / 2 * ((s.size - 1 : ℕ) : ℚ)⌋ = (k : ℤ) := by
      rw [Int.floor_eq_iff]
      exact ⟨by exact_mod_cast c1, by exact_mod_cast c2⟩
    rw [this] at hj
    exact_mod_cast hj
  subst hjk
  refine ⟨_, hI, ?_⟩
  rw [hcall]
  simp only [Except.ok.injEq, SpectrumSample.mk.injEq]
  constructor
  · rw [avg_eq_midpoint]
  · unfold avg
    simp only
    have hn0 := hnpos.ne'
    generalize ((s.size - 1 : ℕ) : ℚ) = n at hn0
    field_simp
    ring

/-- Over exact arithmetic, on `Spectrum(400, 700, [1, 0, 1])`, `k = 1`, over
`Interval(0.6, 0.8)`: both give
the sample at `0.7`. -/
theorem call_Interval_eq_call_float_midpoint_witness :
    ∃ x, (LinearInterpolator.mk vee).call_Interval ⟨3 / 5, 4 / 5⟩ = .ok x ∧
      (LinearInterpolator.mk vee).call_float ((3 / 5 + 4 / 5) / 2) = .ok x :=
  call_Interval_eq_call_float_midpoint vee (by decide) 1 (by decide) ⟨3 / 5, 4 / 5⟩
    (by norm_num [vee, Spectrum.size]) (by norm_num) (by norm_num [vee, Spectrum.size])

/-- C26: for `lambda_min < lambda_max`, at least two bins and
`lambda_min <= g <= lambda_max`, the wavelength query returns a sample whose wavelength is
`g`. -/
theorem call_Nanometer_wavelength (s : Spectrum) (hl : s.lambda_min < s.lambda_max)
    (hN : 2 ≤ s.size) (g : Nanometer) (h0 : s.lambda_min ≤ g) (h1 : g ≤ s.lambda_max) :
    ∃ x, (LinearInterpolator.mk s).call_Nanometer g = .ok x ∧ x.wavelength = g := by
  have hd : 0 < s.lambda_max - s.lambda_min := by linarith
  have hcall : (LinearInterpolator.mk s).call_Nanometer g =
      (LinearInterpolator.mk s).call_float
        ((g - s.lambda_min) / (s.lambda_max - s.lambda_min)) := by
    unfold call_Nanometer
    simp only [if_neg (not_lt.mpr h0), if_neg (not_lt.mpr h1)]
  rw [hcall]
  rcases h0.eq_or_lt with e | e
  · rw [← e, sub_self, zero_div]
    exact ⟨_, call_float_zero s (by omega), rfl⟩
  rcases h1.eq_or_lt with e' | e'
  · rw [e', div_self hd.ne']
    exact ⟨_, call_float_one s (by omega), rfl⟩
  · have hf0 : 0 < (g - s.lambda_min) / (s.lambda_max - s.lambda_min) :=
      div_pos (by linarith) hd
    have hf1 : (g - s.lambda_min) / (s.lambda_max - s.lambda_min) < 1 := by
      rw [div_lt_one hd]; linarith
    obtain ⟨k, -, -, hc⟩ := call_float_interior s _ hN hf0 hf1
    refine ⟨_, hc, ?_⟩
    simp only
    rw [div_mul_cancel₀ _ hd.ne']
    ring

/-- C26 on `Spectrum(380, 730, [0.0, 1.0])` at `g = 500`. -/
theorem call_Nanometer_wavelength_witness :
    ∃ x, (LinearInterpolator.mk ramp).call_Nanometer 500 = .ok x ∧ x.wavelength = 500 :=
  call_Nanometer_wavelength ramp (by norm_num [ramp, Spectrum.lambda_min,
    Spectrum.lambda_max]) (by decide) 500 (by norm_num [ramp, Spectrum.lambda_min])
    (by norm_num [ramp, Spectrum.lambda_max])

/-- C29: on a spectrum with exactly one bin the point query returns `(lambda_min, bin[0])`
at `f = 0` and `(lambda_max, bin[0])` at `f = 1`, and for every `0 < f < 1` it fails with
the internal-consistency logic error. -/
theorem call_float_one_bin (s : Spectrum) (hN : s.size = 1) :
    (LinearInterpolator.mk s).call_float 0 = .ok ⟨s.lambda_min, s.bins_.getD 0 0⟩ ∧
    (LinearInterpolator.mk s).call_float 1 = .ok ⟨s.lambda_max, s.bins_.getD 0 0⟩ ∧
    ∀ f : ℚ, 0 < f → f < 1 → (LinearInterpolator.mk s).call_float f = .error .crap := by
  refine ⟨call_float_zero s (by omega), ?_, fun f h0 h1 => call_float_single_bin s hN f h0 h1⟩
  have h := call_float_one s (by omega)
  rw [hN] at h
  exact h

/-- C29 on `Spectrum(400, 700, [5])`: `(400, 5)` at `0`, `(700, 5)` at `1`, and the
internal-consistency error at `0.5`. -/
theorem call_float_one_bin_witness :
    (LinearInterpolator.mk ⟨400, 700, [5], by decide⟩).call_float 0 = .ok ⟨400, 5⟩ ∧
    (LinearInterpolator.mk ⟨400, 700, [5], by decide⟩).call_float 1 = .ok ⟨700, 5⟩ ∧
    (LinearInterpolator.mk ⟨400, 700, [5], by decide⟩).call_float (1 / 2) = .error .crap := by
  have h := call_float_one_bin ⟨400, 700, [5], by decide⟩ rfl
  exact ⟨h.1, h.2.1, h.2.2 (1 / 2) (by norm_num) (by norm_num)⟩

/-- C30: on a spectrum with `lambda_min > lambda_max` the wavelength query fails with a
domain error for every wavelength `g`. -/
theorem call_Nanometer_inverted_range (s : Spectrum) (hl : s.lambda_min > s.lambda_max)
    (g : Nanometer) :
    ∃ e, (LinearInterpolator.mk s).call_Nanometer g = .error e ∧
      e.is_domain_error = true := by
  by_cases hlo : g < s.lambda_min
  · exact ⟨.nanometer_lt_lambda_min, by simp [call_Nanometer, hlo], rfl⟩
  · have hhi : g > s.lambda_max := lt_of_lt_of_le hl (not_lt.mp hlo)
    exact ⟨.nanometer_gt_lambda_max, by simp [call_Nanometer, hlo, hhi], rfl⟩

/-- C30 on the spectrum constructed from `(700, 400, [3, 1, 2])` at `g = 550`. -/
theorem call_Nanometer_inverted_range_witness :
    ∃ e, (LinearInterpolator.mk (Spectrum.construct 700 400 [3, 1, 2]
        (by decide))).call_Nanometer 550 = .error e ∧ e.is_domain_error = true :=
  call_Nanometer_inverted_range (Spectrum.construct 700 400 [3, 1, 2] (by decide))
    (by norm_num [Spectrum.construct, Spectrum.lambda_min, Spectrum.lambda_max]) 550

/-! ## Range bound and linearity in the bins -/

/-- The point query inside the domain, for `N >= 2` bins, is a convex combination of two
neighbouring bins; the pair of bins and the mixing ratio depend on `f` and `N` alone. -/
theorem call_float_convex (N : ℕ) (hN : 2 ≤ N) (f : ℚ) (h0 : 0 ≤ f) (h1 : f ≤ 1) :
    ∃ (i : ℕ) (θ : ℚ), i + 1 < N ∧ 0 ≤ θ ∧ θ ≤ 1 ∧
      (i : ℚ) / ((N - 1 : ℕ) : ℚ) ≤ f ∧ f ≤ ((i : ℚ) + 1) / ((N - 1 : ℕ) : ℚ) ∧
      ∀ s : Spectrum, s.size = N →
        (LinearInterpolator.mk s).call_float f =
          .ok ⟨s.lambda_min + f * (s.lambda_max - s.lambda_min),
               s.bins_.getD i 0 * (1 - θ) + s.bins_.getD (i + 1) 0 * θ⟩ := by
  have hnpos : (0 : ℚ) < ((N - 1 : ℕ) : ℚ) := by
    have : 0 < N - 1 := by omega
    exact_mod_cast this
  rcases h0.eq_or_lt with e | hpos
  · refine ⟨0, 0, by omega, le_rfl, zero_le_one, ?_, ?_, ?_⟩
    · rw [← e]; simp
    · rw [← e]; positivity
    · intro s hs
      rw [← e, call_float_zero s (by omega)]
      simp
  rcases h1.eq_or_lt with e | hlt
  · refine ⟨N - 2, 1, by omega, zero_le_one, le_rfl, ?_, ?_, ?_⟩
    · rw [e, div_le_one hnpos]
      have : N - 2 ≤ N - 1 := by omega
      exact_mod_cast this
    · rw [e, le_div_iff₀ hnpos, one_mul]
      have : N - 1 = (N - 2) + 1 := by omega
      rw [this]
      push_cast
      exact le_rfl
    · intro s hs
      rw [e, call_float_one s (by omega)]
      have : N - 2 + 1 = s.size - 1 := by omega
      rw [this]
      simp only [Except.ok.injEq, SpectrumSample.mk.injEq]
      constructor <;> ring
  · have hfl : 0 ≤ ⌊f * ((N - 1 : ℕ) : ℚ)⌋ := Int.floor_nonneg.mpr (by positivity)
    obtain ⟨i, hi⟩ := Int.eq_ofNat_of_zero_le hfl
    have hil : (i : ℚ) ≤ f * ((N - 1 : ℕ) : ℚ) := by
      have := Int.floor_le (f * ((N - 1 : ℕ) : ℚ))
      rw [hi] at this
      exact_mod_cast this
    have hiu : f * ((N - 1 : ℕ) : ℚ) < (i : ℚ) + 1 := by
      have := Int.lt_floor_add_one (f * ((N - 1 : ℕ) : ℚ))
      rw [hi] at this
      exact_mod_cast this
    have hiN : i + 1 < N := by
      have h3 : (i : ℚ) < ((N - 1 : ℕ) : ℚ) := by nlinarith
      have h4 : i < N - 1 := by exact_mod_cast h3
      omega
    refine ⟨i, f * ((N - 1 : ℕ) : ℚ) - i, hiN, by linarith, by linarith, ?_, ?_, ?_⟩
    · rw [div_le_iff₀ hnpos]; exact hil
    · rw [le_div_iff₀ hnpos]; exact hiu.le
    · intro s hs
      obtain ⟨k, hk, -, hcall⟩ := call_float_interior s f (by omega) hpos hlt
      rw [hs, hi] at hk
      have hki : k = i := by exact_mod_cast hk
      rw [hcall, hki, hs]

/-- The interval query on a degenerate interval inside the domain is the point query. -/
theorem call_Interval_of_eq (li : LinearInterpolator) (r : Interval)
    (h0 : 0 ≤ r.min) (h1 : r.max ≤ 1) (he : r.min = r.max) :
    li.call_Interval r = li.call_float r.min := by
  unfold call_Interval
  rw [if_neg (not_lt.mpr h0), if_neg (not_lt.mpr h1), if_pos he]

/-- The parts of `[0, t]` inside the first `m` segments add up to `min t (m/(N-1))`. -/
theorem segment_clamp_sum_aux (s : Spectrum) (hN : 2 ≤ s.size) (t : ℚ) (h0 : 0 ≤ t) (m : ℕ) :
    ∑ k in Finset.range m, (segment_clamp s k t - (segment s k).min) =
      Min.min t ((m : ℚ) / ((s.size - 1 : ℕ) : ℚ)) := by
  have hnpos : (0 : ℚ) < ((s.size - 1 : ℕ) : ℚ) := by
    have : 0 < s.size - 1 := by omega
    exact_mod_cast this
  induction m with
  | zero => simp [h0]
  | succ m ih =>
    rw [Finset.sum_range_succ, ih]
    unfold segment_clamp segment
    simp only
    have hle : (m : ℚ) / ((s.size - 1 : ℕ) : ℚ) ≤ ((m : ℚ) + 1) / ((s.size - 1 : ℕ) : ℚ) :=
      div_le_div_of_nonneg_right (by linarith) hnpos.le
    have hc : (((m + 1 : ℕ) : ℚ)) = (m : ℚ) + 1 := by push_cast; rfl
    rw [hc]
    generalize (m : ℚ) / ((s.size - 1 : ℕ) : ℚ) = p at hle ⊢
    generalize ((m : ℚ) + 1) / ((s.size - 1 : ℕ) : ℚ) = q at hle ⊢
    rcases le_total t p with h | h
    · rw [min_eq_left h, min_eq_right (h.trans hle), max_eq_left h, min_eq_left (h.trans hle)]
      ring
    · rcases le_total t q with h' | h'
      · rw [min_eq_right h, min_eq_right h', max_eq_right h, min_eq_left h']
        ring
      · rw [min_eq_right h, min_eq_left h', max_eq_right hle, min_eq_right h']
        ring

/-- The parts of `r` inside the segments add up to the length of `r`. -/
theorem segment_clamp_sum (s : Spectrum) (hN : 2 ≤ s.size) (r : Interval)
    (h0 : 0 ≤ r.min) (hr : r.min ≤ r.max) (h1 : r.max ≤ 1) :
    ∑ k in Finset.range (s.size - 1), (segment_clamp s k r.max - segment_clamp s k r.min) =
      r.max - r.min := by
  have hnpos : (0 : ℚ) < ((s.size - 1 : ℕ) : ℚ) := by
    have : 0 < s.size - 1 := by omega
    exact_mod_cast this
  have ha := segment_clamp_sum_aux s hN r.min h0 (s.size - 1)
  have hb := segment_clamp_sum_aux s hN r.max (h0.trans hr) (s.size - 1)
  rw [div_self hnpos.ne', min_eq_left (hr.trans h1)] at ha
  rw [div_self hnpos.ne', min_eq_left h1] at hb
  calc ∑ k in Finset.range (s.size - 1), (segment_clamp s k r.max - segment_clamp s k r.min)
      = ∑ k in Finset.range (s.size - 1), (segment_clamp s k r.max - (segment s k).min) -
        ∑ k in Finset.range (s.size - 1), (segment_clamp s k r.min - (segment s k).min) := by
        rw [← Finset.sum_sub_distrib]
        exact Finset.sum_congr rfl (fun k _ => by ring)
    _ = r.max - r.min := by rw [ha, hb]

/-- A read inside the bins is one of the bins. -/
theorem getD_mem_bins (s : Spectrum) (k : ℕ) (hk : k < s.size) : s.bins_.getD k 0 ∈ s.bins_ := by
  have hk' : k < s.bins_.length := hk
  rw [List.getD_eq_getElem _ _ hk']
  exact List.getElem_mem hk'

/-- On its segment the reconstruction stays between any two bounds of the bins. -/
theorem reconstruction_between (s : Spectrum) (hN : 2 ≤ s.size) (k : ℕ) (hk : k + 1 < s.size)
    (x : ℚ) (hx0 : (segment s k).min ≤ x) (hx1 : x ≤ (segment s k).max) (lo hi : ℚ)
    (hb : ∀ a ∈ s.bins_, lo ≤ a ∧ a ≤ hi) :
    lo ≤ reconstruction s k x ∧ reconstruction s k x ≤ hi := by
  have hnpos : (0 : ℚ) < ((s.size - 1 : ℕ) : ℚ) := by
    have : 0 < s.size - 1 := by omega
    exact_mod_cast this
  have hA := hb _ (getD_mem_bins s k (by omega))
  have hB := hb _ (getD_mem_bins s (k + 1) hk)
  unfold segment at hx0 hx1
  simp only at hx0 hx1
  rw [div_le_iff₀ hnpos] at hx0
  rw [le_div_iff₀ hnpos] at hx1
  unfold reconstruction
  generalize s.bins_.getD k 0 = A at hA ⊢
  generalize s.bins_.getD (k + 1) 0 = B at hB ⊢
  generalize x * ((s.size - 1 : ℕ) : ℚ) = y at hx0 hx1 ⊢
  have e : A + (B - A) * (y - k) = A * (1 - (y - k)) + B * (y - k) := by ring
  have t0 : 0 ≤ y - k := by linarith
  have t1 : 0 ≤ 1 - (y - k) := by linarith
  rw [e]
  constructor
  · nlinarith [mul_nonneg (sub_nonneg.mpr hA.1) t1, mul_nonneg (sub_nonneg.mpr hB.1) t0]
  · nlinarith [mul_nonneg (sub_nonneg.mpr hA.2) t1, mul_nonneg (sub_nonneg.mpr hB.2) t0]

/-- The integral of the reconstruction over `r` lies between the bounds of the bins times the
length of `r`. -/
theorem reconstruction_integral_between (s : Spectrum) (hN : 2 ≤ s.size) (r : Interval)
    (h0 : 0 ≤ r.min) (hr : r.min ≤ r.max) (h1 : r.max ≤ 1) (lo hi : ℚ)
    (hb : ∀ a ∈ s.bins_, lo ≤ a ∧ a ≤ hi) :
    lo * (r.max - r.min) ≤ reconstruction_integral s r ∧
      reconstruction_integral s r ≤ hi * (r.max - r.min) := by
  have hsum := segment_clamp_sum s hN r h0 hr h1
  have hterm : ∀ k ∈ Finset.range (s.size - 1),
      lo * (segment_clamp s k r.max - segment_clamp s k r.min) ≤ segment_integral s r k ∧
      segment_integral s r k ≤ hi * (segment_clamp s k r.max - segment_clamp s k r.min) := by
    intro k hk
    have hk' : k + 1 < s.size := by
      have := Finset.mem_range.mp hk
      omega
    rw [segment_integral_eq_clamp s r k hr]
    have hw : 0 ≤ segment_clamp s k r.max - segment_clamp s k r.min :=
      sub_nonneg.mpr (segment_clamp_mono s k _ _ hr)
    have ha := reconstruction_between s hN k hk' _ (segment_clamp_mem s k r.min).1
      (segment_clamp_mem s k r.min).2 lo hi hb
    have hc := reconstruction_between s hN k hk' _ (segment_clamp_mem s k r.max).1
      (segment_clamp_mem s k r.max).2 lo hi hb
    generalize reconstruction s k (segment_clamp s k r.min) = u at ha ⊢
    generalize reconstruction s k (segment_clamp s k r.max) = v at hc ⊢
    generalize segment_clamp s k r.max - segment_clamp s k r.min = w at hw ⊢
    constructor
    · rw [mul_comm lo w]
      exact mul_le_mul_of_nonneg_left (by linarith) hw
    · rw [mul_comm hi w]
      exact mul_le_mul_of_nonneg_left (by linarith) hw
  unfold reconstruction_integral
  rw [← hsum, Finset.mul_sum, Finset.mul_sum]
  exact ⟨Finset.sum_le_sum (fun k hk => (hterm k hk).1),
    Finset.sum_le_sum (fun k hk => (hterm k hk).2)⟩

/-- The integral of the reconstruction is linear in the bins. -/
theorem reconstruction_integral_linear (s t u : Spectrum) (hst : s.size = t.size)
    (hsu : u.size = s.size) (α β : ℚ)
    (hu : ∀ i, i < s.size → u.bins_.getD i 0 = α * s.bins_.getD i 0 + β * t.bins_.getD i 0)
    (r : Interval) (hr : r.min ≤ r.max) :
    reconstruction_integral u r =
      α * reconstruction_integral s r + β * reconstruction_integral t r := by
  unfold reconstruction_integral
  rw [hsu, ← hst, Finset.mul_sum, Finset.mul_sum, ← Finset.sum_add_distrib]
  refine Finset.sum_congr rfl (fun k hk => ?_)
  have hk' : k + 1 < s.size := by
    have := Finset.mem_range.mp hk
    omega
  rw [segment_integral_eq_clamp u r k hr, segment_integral_eq_clamp s r k hr,
    segment_integral_eq_clamp t r k hr]
  have e1 : ∀ x, segment_clamp u k x = segment_clamp s k x := by
    intro x; unfold segment_clamp segment; rw [hsu]
  have e2 : ∀ x, segment_clamp t k x = segment_clamp s k x := by
    intro x; unfold segment_clamp segment; rw [hst]
  simp only [e1, e2]
  unfold reconstruction
  rw [hu k (by omega), hu (k + 1) hk', hsu, ← hst]
  ring


/-- A non-empty spectrum has a smallest and a largest bin. -/
theorem bins_min_max (s : Spectrum) (hN : 1 ≤ s.size) :
    ∃ lo ∈ s.bins_, ∃ hi ∈ s.bins_, ∀ a ∈ s.bins_, lo ≤ a ∧ a ≤ hi := by
  have hne : s.bins_.toFinset.Nonempty :=
    ⟨s.bins_.getD 0 0, List.mem_toFinset.mpr (getD_mem_bins s 0 (by omega))⟩
  obtain ⟨lo, hlo, hlo'⟩ := s.bins_.toFinset.exists_min_image id hne
  obtain ⟨hi, hhi, hhi'⟩ := s.bins_.toFinset.exists_max_image id hne
  exact ⟨lo, List.mem_toFinset.mp hlo, hi, List.mem_toFinset.mp hhi,
    fun a ha => ⟨hlo' a (List.mem_toFinset.mpr ha), hhi' a (List.mem_toFinset.mpr ha)⟩⟩

/-- The point query inside the domain, for at least two bins, stays between any two bounds
of the bins. -/
theorem call_float_between (s : Spectrum) (hN : 2 ≤ s.size) (f : ℚ) (h0 : 0 ≤ f) (h1 : f ≤ 1) :
    ∃ x, (LinearInterpolator.mk s).call_float f = .ok x ∧
      ∀ lo hi : ℚ, (∀ a ∈ s.bins_, lo ≤ a ∧ a ≤ hi) → lo ≤ x.amplitude ∧ x.amplitude ≤ hi := by
  obtain ⟨i, θ, hi, ht0, ht1, -, -, hcall⟩ := call_float_convex s.size hN f h0 h1
  refine ⟨_, hcall s rfl, ?_⟩
  intro lo hi' hb
  have hA := hb _ (getD_mem_bins s i (by omega))
  have hB := hb _ (getD_mem_bins s (i + 1) hi)
  simp only
  generalize s.bins_.getD i 0 = A at hA ⊢
  generalize s.bins_.getD (i + 1) 0 = B at hB ⊢
  have t1 : 0 ≤ 1 - θ := by linarith
  constructor
  · nlinarith [mul_nonneg (sub_nonneg.mpr hA.1) t1, mul_nonneg (sub_nonneg.mpr hB.1) ht0]
  · nlinarith [mul_nonneg (sub_nonneg.mpr hA.2) t1, mul_nonneg (sub_nonneg.mpr hB.2) ht0]

/-- The interval query on an interval that ends before `1`, for at least two bins, stays
between any two bounds of the bins. -/
theorem call_Interval_between (s : Spectrum) (hN : 2 ≤ s.size) (r : Interval)
    (h0 : 0 ≤ r.min) (hr : r.min ≤ r.max) (h1 : r.max < 1) :
    ∃ x, (LinearInterpolator.mk s).call_Interval r = .ok x ∧
      ∀ lo hi : ℚ, (∀ a ∈ s.bins_, lo ≤ a ∧ a ≤ hi) → lo ≤ x.amplitude ∧ x.amplitude ≤ hi := by
  rcases hr.eq_or_lt with he | hlt
  · rw [call_Interval_of_eq _ r h0 h1.le he]
    exact call_float_between s hN r.min h0 (by linarith)
  · refine ⟨_, call_Interval_eq s hN r h0 hlt h1, ?_⟩
    intro lo hi hb
    have hw : 0 < r.max - r.min := by linarith
    have hI := reconstruction_integral_between s hN r h0 hr h1.le lo hi hb
    simp only
    exact ⟨(le_div_iff₀ hw).mpr hI.1, (div_le_iff₀ hw).mpr hI.2⟩

/-- Over exact arithmetic: range bound. For at least two bins, the point query at `f` in
`[0,1]` returns an
amplitude between the smaller and the larger of two neighbouring bins `i`, `i+1` whose anchors
enclose `f` (bins `N-2`, `N-1` at `f = 1`); the interval query with
`0 <= r.min <= r.max < 1` returns an amplitude between the smallest and the largest bin of the
spectrum; and when every bin equals `c` both queries return the amplitude `c`. -/
theorem amplitude_range_bound (s : Spectrum) (hN : 2 ≤ s.size) (f : ℚ) (hf0 : 0 ≤ f)
    (hf1 : f ≤ 1) (r : Interval) (hr0 : 0 ≤ r.min) (hr : r.min ≤ r.max) (hr1 : r.max < 1) :
    (∃ (x : SpectrumSample) (i : ℕ), (LinearInterpolator.mk s).call_float f = .ok x ∧
      i + 1 < s.size ∧ (i : ℚ) / ((s.size - 1 : ℕ) : ℚ) ≤ f ∧
      f ≤ ((i : ℚ) + 1) / ((s.size - 1 : ℕ) : ℚ) ∧
      Min.min (s.bins_.getD i 0) (s.bins_.getD (i + 1) 0) ≤ x.amplitude ∧
      x.amplitude ≤ Max.max (s.bins_.getD i 0) (s.bins_.getD (i + 1) 0)) ∧
    (∃ x, (LinearInterpolator.mk s).call_Interval r = .ok x ∧
      ∃ lo ∈ s.bins_, ∃ hi ∈ s.bins_, (∀ a ∈ s.bins_, lo ≤ a ∧ a ≤ hi) ∧
        lo ≤ x.amplitude ∧ x.amplitude ≤ hi) ∧
    (∀ c : ℚ, (∀ a ∈ s.bins_, a = c) →
      (∃ x, (LinearInterpolator.mk s).call_float f = .ok x ∧ x.amplitude = c) ∧
      (∃ x, (LinearInterpolator.mk s).call_Interval r = .ok x ∧ x.amplitude = c)) := by
  refine ⟨?_, ?_, ?_⟩
  · obtain ⟨i, θ, hi, ht0, ht1, hlo, hhi, hcall⟩ := call_float_convex s.size hN f hf0 hf1
    refine ⟨_, i, hcall s rfl, hi, hlo, hhi, ?_, ?_⟩
    · simp only
      generalize s.bins_.getD i 0 = A
      generalize s.bins_.getD (i + 1) 0 = B
      have t1 : 0 ≤ 1 - θ := by linarith
      rcases le_total A B with h | h
      · rw [min_eq_left h]
        nlinarith [mul_nonneg (sub_nonneg.mpr h) ht0]
      · rw [min_eq_right h]
        nlinarith [mul_nonneg (sub_nonneg.mpr h) t1]
    · simp only
      generalize s.bins_.getD i 0 = A
      generalize s.bins_.getD (i + 1) 0 = B
      have t1 : 0 ≤ 1 - θ := by linarith
      rcases le_total A B with h | h
      · rw [max_eq_right h]
        nlinarith [mul_nonneg (sub_nonneg.mpr h) t1]
      · rw [max_eq_left h]
        nlinarith [mul_nonneg (sub_nonneg.mpr h) ht0]
  · obtain ⟨x, hx, hbx⟩ := call_Interval_between s hN r hr0 hr hr1
    obtain ⟨lo, hlo, hi, hhi, hb⟩ := bins_min_max s (by omega)
    exact ⟨x, hx, lo, hlo, hi, hhi, hb, hbx lo hi hb⟩
  · intro c hc
    have hb : ∀ a ∈ s.bins_, c ≤ a ∧ a ≤ c := fun a ha => by rw [hc a ha]; exact ⟨le_rfl, le_rfl⟩
    obtain ⟨x, hx, hbx⟩ := call_float_between s hN f hf0 hf1
    obtain ⟨y, hy, hby⟩ := call_Interval_between s hN r hr0 hr hr1
    exact ⟨⟨x, hx, le_antisymm (hbx c c hb).2 (hbx c c hb).1⟩,
      ⟨y, hy, le_antisymm (hby c c hb).2 (hby c c hb).1⟩⟩

/-- Over exact arithmetic, on `Spectrum(400, 700, [1, 0, 1])` at `f = 0.25` and over
`Interval(0.25, 0.9)`, and on
the constant `Spectrum(400, 700, [2, 2, 2])`, where both queries return the amplitude `2`. -/
theorem amplitude_range_bound_witness :
    (∃ (x : SpectrumSample) (i : ℕ), (LinearInterpolator.mk vee).call_float (1 / 4) = .ok x ∧
      i + 1 < vee.size ∧ (i : ℚ) / ((vee.size - 1 : ℕ) : ℚ) ≤ 1 / 4 ∧
      (1 / 4 : ℚ) ≤ ((i : ℚ) + 1) / ((vee.size - 1 : ℕ) : ℚ) ∧
      Min.min (vee.bins_.getD i 0) (vee.bins_.getD (i + 1) 0) ≤ x.amplitude ∧
      x.amplitude ≤ Max.max (vee.bins_.getD i 0) (vee.bins_.getD (i + 1) 0)) ∧
    (∃ x, (LinearInterpolator.mk vee).call_Interval ⟨1 / 4, 9 / 10⟩ = .ok x ∧
      ∃ lo ∈ vee.bins_, ∃ hi ∈ vee.bins_, (∀ a ∈ vee.bins_, lo ≤ a ∧ a ≤ hi) ∧
        lo ≤ x.amplitude ∧ x.amplitude ≤ hi) ∧
    (∃ x, (LinearInterpolator.mk ⟨400, 700, [2, 2, 2], by decide⟩).call_float (1 / 4) = .ok x ∧
      x.amplitude = 2) ∧
    (∃ x, (LinearInterpolator.mk ⟨400, 700, [2, 2, 2], by decide⟩).call_Interval
      ⟨1 / 4, 9 / 10⟩ = .ok x ∧ x.amplitude = 2) := by
  have h := amplitude_range_bound vee (by decide) (1 / 4) (by norm_num) (by norm_num)
    ⟨1 / 4, 9 / 10⟩ (by norm_num) (by norm_num) (by norm_num)
  have hc := (amplitude_range_bound ⟨400, 700, [2, 2, 2], by decide⟩ (by decide) (1 / 4)
    (by norm_num) (by norm_num) ⟨1 / 4, 9 / 10⟩ (by norm_num) (by norm_num)
    (by norm_num)).2.2 2 (by simp)
  exact ⟨h.1, h.2.1, hc.1, hc.2⟩


/-- The bins of the combination `alpha*S + beta*T` of two spectra of one size. -/
theorem zipWith_bins (s t u : Spectrum) (hst : t.size = s.size) (α β : ℚ)
    (hu : u.bins_ = List.zipWith (fun a b => α * a + β * b) s.bins_ t.bins_) :
    u.size = s.size ∧
      ∀ i, i < s.size → u.bins_.getD i 0 = α * s.bins_.getD i 0 + β * t.bins_.getD i 0 := by
  have hst' : t.bins_.length = s.bins_.length := hst
  have hlen : u.bins_.length = s.bins_.length := by
    rw [hu, List.length_zipWith, hst', min_self]
  refine ⟨hlen, fun i hi => ?_⟩
  have hi' : i < s.bins_.length := hi
  rw [List.getD_eq_getElem _ _ (by omega : i < u.bins_.length),
    List.getD_eq_getElem _ _ hi', List.getD_eq_getElem _ _ (by omega : i < t.bins_.length)]
  simp only [hu, List.getElem_zipWith]

/-- The point query is linear in the bins. -/
theorem call_float_linear (s t u : Spectrum) (hN : 2 ≤ s.size) (hst : t.size = s.size)
    (hsu : u.size = s.size) (hlm : t.lambda_min = s.lambda_min)
    (hlM : t.lambda_max = s.lambda_max) (hum : u.lambda_min = s.lambda_min)
    (huM : u.lambda_max = s.lambda_max) (α β : ℚ)
    (hu : ∀ i, i < s.size → u.bins_.getD i 0 = α * s.bins_.getD i 0 + β * t.bins_.getD i 0)
    (f : ℚ) (h0 : 0 ≤ f) (h1 : f ≤ 1) :
    ∃ x y z, (LinearInterpolator.mk s).call_float f = .ok x ∧
      (LinearInterpolator.mk t).call_float f = .ok y ∧
      (LinearInterpolator.mk u).call_float f = .ok z ∧
      z.amplitude = α * x.amplitude + β * y.amplitude ∧
      z.wavelength = x.wavelength ∧ z.wavelength = y.wavelength := by
  obtain ⟨i, θ, hi, -, -, -, -, hcall⟩ := call_float_convex s.size hN f h0 h1
  refine ⟨_, _, _, hcall s rfl, hcall t hst, hcall u hsu, ?_, ?_, ?_⟩
  · simp only
    rw [hu i (by omega), hu (i + 1) hi]
    ring
  · simp only
    rw [hum, huM]
  · simp only
    rw [hum, huM, hlm, hlM]

/-- The interval query on an interval that ends before `1` is linear in the bins. -/
theorem call_Interval_linear (s t u : Spectrum) (hN : 2 ≤ s.size) (hst : t.size = s.size)
    (hsu : u.size = s.size) (hlm : t.lambda_min = s.lambda_min)
    (hlM : t.lambda_max = s.lambda_max) (hum : u.lambda_min = s.lambda_min)
    (huM : u.lambda_max = s.lambda_max) (α β : ℚ)
    (hu : ∀ i, i < s.size → u.bins_.getD i 0 = α * s.bins_.getD i 0 + β * t.bins_.getD i 0)
    (r : Interval) (h0 : 0 ≤ r.min) (hr : r.min ≤ r.max) (h1 : r.max < 1) :
    ∃ x y z, (LinearInterpolator.mk s).call_Interval r = .ok x ∧
      (LinearInterpolator.mk t).call_Interval r = .ok y ∧
      (LinearInterpolator.mk u).call_Interval r = .ok z ∧
      z.amplitude = α * x.amplitude + β * y.amplitude ∧
      z.wavelength = x.wavelength ∧ z.wavelength = y.wavelength := by
  rcases hr.eq_or_lt with he | hlt
  · rw [call_Interval_of_eq _ r h0 h1.le he, call_Interval_of_eq _ r h0 h1.le he,
      call_Interval_of_eq _ r h0 h1.le he]
    exact call_float_linear s t u hN hst hsu hlm hlM hum huM α β hu r.min h0 (by linarith)
  · refine ⟨_, _, _, call_Interval_eq s hN r h0 hlt h1,
      call_Interval_eq t (by omega) r h0 hlt h1, call_Interval_eq u (by omega) r h0 hlt h1,
      ?_, ?_, ?_⟩
    · simp only
      rw [reconstruction_integral_linear s t u hst.symm hsu α β hu r hr]
      ring
    · simp only
      rw [hum, huM]
    · simp only
      rw [hum, huM, hlm, hlM]

/-- Over exact arithmetic: linearity in the bins. For spectra `S` and `T` with the same
`lambda_min`,
`lambda_max` and bin count `N >= 2`, scalars `alpha`, `beta`, and `U` over the same range with
bins `alpha*S[i] + beta*T[i]`, the point query at `f` in `[0,1]` and the interval query with
`0 <= r.min <= r.max < 1` on `U` return the amplitude
`alpha*(amplitude on S) + beta*(amplitude on T)` and the wavelength returned on `S` and `T`. -/
theorem call_linear_in_bins (s t u : Spectrum) (α β : ℚ) (hN : 2 ≤ s.size)
    (hst : t.size = s.size) (hlm : t.lambda_min = s.lambda_min)
    (hlM : t.lambda_max = s.lambda_max) (hum : u.lambda_min = s.lambda_min)
    (huM : u.lambda_max = s.lambda_max)
    (hu : u.bins_ = List.zipWith (fun a b => α * a + β * b) s.bins_ t.bins_)
    (f : ℚ) (hf0 : 0 ≤ f) (hf1 : f ≤ 1)
    (r : Interval) (hr0 : 0 ≤ r.min) (hr : r.min ≤ r.max) (hr1 : r.max < 1) :
    (∃ x y z, (LinearInterpolator.mk s).call_float f = .ok x ∧
      (LinearInterpolator.mk t).call_float f = .ok y ∧
      (LinearInterpolator.mk u).call_float f = .ok z ∧
      z.amplitude = α * x.amplitude + β * y.amplitude ∧
      z.wavelength = x.wavelength ∧ z.wavelength = y.wavelength) ∧
    (∃ x y z, (LinearInterpolator.mk s).call_Interval r = .ok x ∧
      (LinearInterpolator.mk t).call_Interval r = .ok y ∧
      (LinearInterpolator.mk u).call_Interval r = .ok z ∧
      z.amplitude = α * x.amplitude + β * y.amplitude ∧
      z.wavelength = x.wavelength ∧ z.wavelength = y.wavelength) := by
  obtain ⟨hsu, hget⟩ := zipWith_bins s t u hst α β hu
  exact ⟨call_float_linear s t u hN hst hsu hlm hlM hum huM α β hget f hf0 hf1,
    call_Interval_linear s t u hN hst hsu hlm hlM hum huM α β hget r hr0 hr hr1⟩

/-- Over exact arithmetic, on `S = Spectrum(400, 700, [1, 0, 1])`,
`T = Spectrum(400, 700, [0, 2, 4])`,
`alpha = 2`, `beta = 3`, `U = Spectrum(400, 700, [2, 6, 14])`, at `f = 0.25` and over
`Interval(0.25, 0.9)`. -/
theorem call_linear_in_bins_witness :
    (∃ x y z, (LinearInterpolator.mk vee).call_float (1 / 4) = .ok x ∧
      (LinearInterpolator.mk ⟨400, 700, [0, 2, 4], by decide⟩).call_float (1 / 4) = .ok y ∧
      (LinearInterpolator.mk ⟨400, 700, [2, 6, 14], by decide⟩).call_float (1 / 4) = .ok z ∧
      z.amplitude = 2 * x.amplitude + 3 * y.amplitude ∧
      z.wavelength = x.wavelength ∧ z.wavelength = y.wavelength) ∧
    (∃ x y z, (LinearInterpolator.mk vee).call_Interval ⟨1 / 4, 9 / 10⟩ = .ok x ∧
      (LinearInterpolator.mk ⟨400, 700, [0, 2, 4], by decide⟩).call_Interval
        ⟨1 / 4, 9 / 10⟩ = .ok y ∧
      (LinearInterpolator.mk ⟨400, 700, [2, 6, 14], by decide⟩).call_Interval
        ⟨1 / 4, 9 / 10⟩ = .ok z ∧
      z.amplitude = 2 * x.amplitude + 3 * y.amplitude ∧
      z.wavelength = x.wavelength ∧ z.wavelength = y.wavelength) :=
  call_linear_in_bins vee ⟨400, 700, [0, 2, 4], by decide⟩ ⟨400, 700, [2, 6, 14], by decide⟩
    2 3 (by decide) rfl rfl rfl rfl rfl (by norm_num [vee]) (1 / 4) (by norm_num)
    (by norm_num) ⟨1 / 4, 9 / 10⟩ (by norm_num) (by norm_num) (by norm_num)

/-! ## Rounding to binary32 and the interval query over machine arithmetic -/

/-- A rational within half a unit of an integer rounds to it. -/
theorem round_half_even_eq (x : ℚ) (m : ℤ) (h1 : (m : ℚ) - 1 / 2 < x)
    (h2 : x < (m : ℚ) + 1 / 2) : ieee754.round_half_even x = m := by
  unfold ieee754.round_half_even
  rcases lt_or_le x (m : ℚ) with h | h
  · have hf : ⌊x⌋ = m - 1 := by
      rw [Int.floor_eq_iff]
      push_cast
      constructor <;> linarith
    rw [hf]
    push_cast
    rw [if_neg (by linarith), if_pos (by linarith)]
    ring
  · have hf : ⌊x⌋ = m := by
      rw [Int.floor_eq_iff]
      constructor <;> linarith
    rw [hf, if_pos (by linarith)]

/-- Rounding to a binary format, from the binade of `q` and the neighbouring significand. -/
theorem round_to_eq (p : ℕ) (emin : ℤ) (q : ℚ) (e m : ℤ) (he1 : (2 : ℚ) ^ e ≤ |q|)
    (he2 : |q| < (2 : ℚ) ^ (e + 1)) (hemin : emin ≤ e)
    (h1 : (m : ℚ) - 1 / 2 < q / 2 ^ (e - ((p : ℤ) - 1)))
    (h2 : q / 2 ^ (e - ((p : ℤ) - 1)) < (m : ℚ) + 1 / 2) :
    ieee754.round_to p emin q = (m : ℚ) * 2 ^ (e - ((p : ℤ) - 1)) := by
  have hpos : (0 : ℚ) < |q| := lt_of_lt_of_le (by positivity) he1
  have hq : q ≠ 0 := abs_pos.mp hpos
  have hlog : Int.log 2 |q| = e := by
    apply le_antisymm
    · have := (Int.lt_zpow_iff_log_lt (b := 2) (by norm_num) hpos (x := e + 1)).mp
        (by exact_mod_cast he2)
      omega
    · exact (Int.zpow_le_iff_le_log (b := 2) (by norm_num) hpos).mp (by exact_mod_cast he1)
  unfold ieee754.round_to
  rw [if_neg hq]
  simp only [hlog, max_eq_left hemin]
  rw [round_half_even_eq _ m h1 h2]

/-- Rounding of a positive rational to a binary format. -/
theorem round_to_eq_pos (p : ℕ) (emin : ℤ) (q : ℚ) (e m : ℤ) (he1 : (2 : ℚ) ^ e ≤ q)
    (he2 : q < (2 : ℚ) ^ (e + 1)) (hemin : emin ≤ e)
    (h1 : (m : ℚ) - 1 / 2 < q / 2 ^ (e - ((p : ℤ) - 1)))
    (h2 : q / 2 ^ (e - ((p : ℤ) - 1)) < (m : ℚ) + 1 / 2) :
    ieee754.round_to p emin q = (m : ℚ) * 2 ^ (e - ((p : ℤ) - 1)) := by
  have hpos : (0 : ℚ) < q := lt_of_lt_of_le (by positivity) he1
  exact round_to_eq p emin q e m (by rw [abs_of_pos hpos]; exact he1)
    (by rw [abs_of_pos hpos]; exact he2) hemin h1 h2

/-- Rounding of a negative rational to a binary format. -/
theorem round_to_eq_neg (p : ℕ) (emin : ℤ) (q : ℚ) (e m : ℤ) (he1 : (2 : ℚ) ^ e ≤ -q)
    (he2 : -q < (2 : ℚ) ^ (e + 1)) (hemin : emin ≤ e)
    (h1 : (m : ℚ) - 1 / 2 < q / 2 ^ (e - ((p : ℤ) - 1)))
    (h2 : q / 2 ^ (e - ((p : ℤ) - 1)) < (m : ℚ) + 1 / 2) :
    ieee754.round_to p emin q = (m : ℚ) * 2 ^ (e - ((p : ℤ) - 1)) := by
  have hpos : (0 : ℚ) < -q := lt_of_lt_of_le (by positivity) he1
  have hneg : q < 0 := neg_pos.mp hpos
  exact round_to_eq p emin q e m (by rw [abs_of_neg hneg]; exact he1)
    (by rw [abs_of_neg hneg]; exact he2) hemin h1 h2

theorem round_to_zero (p : ℕ) (emin : ℤ) : ieee754.round_to p emin 0 = 0 := by
  simp [ieee754.round_to]

/-- The unchecked read fails in one way only. -/
theorem subscript_error (s : Spectrum) (i : ℕ) (e : Error) (h : s.subscript i = .error e) :
    e = .undefined_behaviour := by
  unfold Spectrum.subscript at h
  split at h
  · cases h
  · exact (Except.error.inj h).symm

/-- The lambda `bin_average` over machine arithmetic fails in one way only. -/
theorem ieee754_bin_average_error (li : LinearInterpolator) (delta : ℚ) (r : Interval)
    (bin : ℤ) (e : Error) (h : ieee754.bin_average li delta r bin = .error e) :
    e = .undefined_behaviour := by
  unfold ieee754.bin_average at h
  simp only at h
  split at h
  · exact (Except.error.inj h).symm
  · simp only [bind, Except.bind, pure, Except.pure] at h
    cases ha : li.spec.subscript (size_t_of_int bin) with
    | error e1 =>
      rw [ha] at h
      rw [← Except.error.inj h]
      exact subscript_error _ _ _ ha
    | ok a =>
      rw [ha] at h
      cases hb : li.spec.subscript (size_t_of_int (bin + 1)) with
      | error e1 =>
        rw [hb] at h
        rw [← Except.error.inj h]
        exact subscript_error _ _ _ hb
      | ok b =>
        rw [hb] at h
        cases h

theorem to_float_six : ieee754.to_float 6 = 6 := by
  rw [ieee754.to_float, round_to_eq_pos 24 (-126) 6 2 12582912 (by norm_num) (by norm_num)
    (by norm_num) (by norm_num) (by norm_num)]
  norm_num

theorem to_float_five : ieee754.to_float 5 = 5 := by
  rw [ieee754.to_float, round_to_eq_pos 24 (-126) 5 2 10485760 (by norm_num) (by norm_num)
    (by norm_num) (by norm_num) (by norm_num)]
  norm_num

/-- The `float` nearest to `1/6`: `delta` for seven bins. -/
theorem to_float_one_sixth : ieee754.to_float (1 / 6) = 11184811 / 67108864 := by
  rw [ieee754.to_float, round_to_eq_pos 24 (-126) (1 / 6) (-3) 11184811 (by norm_num)
    (by norm_num) (by norm_num) (by norm_num) (by norm_num)]
  norm_num

/-- The `float` product of `5.0f/6.0f` and `6` is `5`: the exact product `5 - 2^-23` is not
a `float`. -/
theorem to_float_five_sixths_mul_six :
    ieee754.to_float (13981013 / 16777216 * 6) = 5 := by
  rw [ieee754.to_float, round_to_eq_pos 24 (-126) (13981013 / 16777216 * 6) 2 10485760
    (by norm_num) (by norm_num) (by norm_num) (by norm_num) (by norm_num)]
  norm_num

/-- The `float` product `5 * delta` for seven bins lies above `5.0f/6.0f`. -/
theorem to_float_five_mul_delta :
    ieee754.to_float (5 * (11184811 / 67108864)) = 6990507 / 8388608 := by
  rw [ieee754.to_float, round_to_eq_pos 24 (-126) (5 * (11184811 / 67108864)) (-1) 13981014
    (by norm_num) (by norm_num) (by norm_num) (by norm_num) (by norm_num)]
  norm_num

/-- The `float` quotient `5.0f/6.0f`. -/
theorem to_float_five_sixths : ieee754.to_float (5 / 6) = 13981013 / 16777216 := by
  rw [ieee754.to_float, round_to_eq_pos 24 (-126) (5 / 6) (-1) 13981013 (by norm_num)
    (by norm_num) (by norm_num) (by norm_num) (by norm_num)]
  norm_num

/-- The `float` literal `0.7f`. -/
theorem to_float_seven_tenths : ieee754.to_float (7 / 10) = 11744051 / 16777216 := by
  rw [ieee754.to_float, round_to_eq_pos 24 (-126) (7 / 10) (-1) 11744051 (by norm_num)
    (by norm_num) (by norm_num) (by norm_num) (by norm_num)]
  norm_num

/-- An interval that starts at the `float` `5*delta` (seven bins) does not meet an interval
that ends at `5.0f/6.0f`. -/
theorem intersection_above_five_sixths (b : ℚ) (r : Interval)
    (hmax : r.max = 13981013 / 16777216) :
    intersection ⟨6990507 / 8388608, b⟩ r = none := by
  unfold intersection
  rw [if_neg]
  intro hle
  have h1 : (6990507 / 8388608 : ℚ) ≤ r.max :=
    (le_max_left _ _).trans (hle.trans (min_le_right _ _))
  rw [hmax] at h1
  norm_num at h1

/-- Seven bins over machine arithmetic: the span of bin 5 starts at `5*delta`, a `float`
above `5.0f/6.0f`, so it does not meet an interval that ends at `5.0f/6.0f`, and
`bin_average(5)` dereferences an empty overlap. -/
theorem ieee754_bin_average_five (s : Spectrum) (r : Interval)
    (hmax : r.max = 13981013 / 16777216) :
    ieee754.bin_average (LinearInterpolator.mk s) (11184811 / 67108864) r 5 =
      .error .undefined_behaviour := by
  unfold ieee754.bin_average
  simp only [Int.cast_ofNat, to_float_five, to_float_five_mul_delta,
    intersection_above_five_sixths _ r hmax]

/-- Seven bins over machine arithmetic: every interval query with `0 <= r.min < r.max` and
`r.max = 5.0f/6.0f` gets `max_i = 5` (the exact product is below `5`) and leaves defined
behaviour in `bin_average(max_i)`. -/
theorem ieee754_call_Interval_seven_bins (s : Spectrum) (hs : s.size = 7) (r : Interval)
    (h0 : 0 ≤ r.min) (hlt : r.min < r.max) (hmax : r.max = 13981013 / 16777216) :
    ieee754.call_Interval (LinearInterpolator.mk s) r = .error .undefined_behaviour := by
  have hm : size_minus_1 s = 6 := by rw [size_minus_1_eq s (by omega), hs]
  have hmaxi : int_of_float (ieee754.to_float (r.max * 6)) = 5 := by
    rw [hmax, to_float_five_sixths_mul_six]
    norm_num [int_of_float]
  have h5 := ieee754_bin_average_five s r hmax
  unfold ieee754.call_Interval
  rw [if_neg (not_lt.mpr h0), if_neg (by rw [hmax]; norm_num), if_neg hlt.ne]
  simp only [hm, Nat.cast_ofNat, to_float_six, to_float_one_sixth, hmaxi, bind, Except.bind]
  cases hfirst : ieee754.bin_average (LinearInterpolator.mk s) (11184811 / 67108864) r
      (int_of_float (ieee754.to_float (r.min * 6))) with
  | error e =>
    simp only
    rw [ieee754_bin_average_error _ _ _ _ e hfirst]
  | ok ba =>
    have hne : int_of_float (ieee754.to_float (r.min * 6)) ≠ 5 := by
      intro h
      rw [h, h5] at hfirst
      cases hfirst
    simp only [if_pos hne, h5]

theorem to_float_eleven : ieee754.to_float 11 = 11 := by
  rw [ieee754.to_float, round_to_eq_pos 24 (-126) 11 3 11534336 (by norm_num) (by norm_num)
    (by norm_num) (by norm_num) (by norm_num)]
  norm_num

/-- The `float` product of `7626007/2^24` and `11` is `5`: the exact product is below `5`. -/
theorem to_float_f_mul_eleven : ieee754.to_float (83886077 / 16777216) = 5 := by
  rw [ieee754.to_float, round_to_eq_pos 24 (-126) (83886077 / 16777216) 2 10485760
    (by norm_num) (by norm_num) (by norm_num) (by norm_num) (by norm_num)]
  norm_num

theorem to_float_five_elevenths : ieee754.to_float (5 / 11) = 15252015 / 33554432 := by
  rw [ieee754.to_float, round_to_eq_pos 24 (-126) (5 / 11) (-2) 15252015
    (by norm_num) (by norm_num) (by norm_num) (by norm_num) (by norm_num)]
  norm_num

theorem to_float_six_elevenths : ieee754.to_float (6 / 11) = 9151209 / 16777216 := by
  rw [ieee754.to_float, round_to_eq_pos 24 (-126) (6 / 11) (-1) 9151209
    (by norm_num) (by norm_num) (by norm_num) (by norm_num) (by norm_num)]
  norm_num

theorem to_float_f_sub_min : ieee754.to_float (-(1 / 33554432)) = -(1 / 33554432) := by
  rw [ieee754.to_float, round_to_eq_neg 24 (-126) (-(1 / 33554432)) (-25) (-8388608)
    (by norm_num) (by norm_num) (by norm_num) (by norm_num) (by norm_num)]
  norm_num

theorem to_float_max_sub_min : ieee754.to_float (3050403 / 33554432) = 3050403 / 33554432 := by
  rw [ieee754.to_float, round_to_eq_pos 24 (-126) (3050403 / 33554432) (-4) 12201612
    (by norm_num) (by norm_num) (by norm_num) (by norm_num) (by norm_num)]
  norm_num

/-- The `float` quotient `frac` at `f = 7626007/2^24` on twelve bins: negative. -/
theorem to_float_frac : ieee754.to_float (-(1 / 3050403)) = -(11 / 33554432) := by
  rw [ieee754.to_float, round_to_eq_neg 24 (-126) (-(1 / 3050403)) (-22) (-11534336)
    (by norm_num) (by norm_num) (by norm_num) (by norm_num) (by norm_num)]
  norm_num

theorem to_float_one_sub_frac : ieee754.to_float (33554443 / 33554432) = 8388611 / 8388608 := by
  rw [ieee754.to_float, round_to_eq_pos 24 (-126) (33554443 / 33554432) 0 8388611
    (by norm_num) (by norm_num) (by norm_num) (by norm_num) (by norm_num)]
  norm_num

theorem to_float_amplitude : ieee754.to_float (8388611 / 8388608) = 8388611 / 8388608 := by
  rw [ieee754.to_float, round_to_eq_pos 24 (-126) (8388611 / 8388608) 0 8388611
    (by norm_num) (by norm_num) (by norm_num) (by norm_num) (by norm_num)]
  norm_num

theorem to_float_zero : ieee754.to_float 0 = 0 := round_to_zero 24 (-126)

theorem to_float_f : ieee754.to_float (7626007 / 16777216) = 7626007 / 16777216 := by
  rw [ieee754.to_float, round_to_eq_pos 24 (-126) (7626007 / 16777216) (-2) 15252014
    (by norm_num) (by norm_num) (by norm_num) (by norm_num) (by norm_num)]
  norm_num

theorem except_bind_ok {α β : Type} (a : α) (f : α → Except Error β) :
    (Except.ok a >>= f) = f a := rfl

/-- Twelve bins over machine arithmetic at `f = 7626007/2^24`: the `float` product
`f * 11` is `5`, so `i = 5` although `f` lies below `5/11`; `frac` is negative and the
amplitude is `1 + 3 * 2^-23`. -/
theorem ieee754_call_float_twelve_bins :
    ieee754.call_float (LinearInterpolator.mk twelve_bins) (7626007 / 16777216) =
      .ok ⟨400 + 7626007 / 16777216 * (700 - 400), 8388611 / 8388608⟩ := by
  have hm : size_minus_1 twelve_bins = 11 := by
    rw [size_minus_1_eq _ (by decide)]
    rfl
  have hi : int_of_float (ieee754.to_float
      (7626007 / 16777216 * ieee754.to_float ((11 : ℕ) : ℚ))) = 5 := by
    norm_num [to_float_eleven, to_float_f_mul_eleven, int_of_float]
  have ha : twelve_bins.subscript (size_t_of_int 5) = .ok 1 := by
    norm_num [twelve_bins, Spectrum.subscript, size_t_of_int, Int.toNat]
  have hb : twelve_bins.subscript (size_t_of_int (5 + 1)) = .ok 0 := by
    norm_num [twelve_bins, Spectrum.subscript, size_t_of_int, Int.toNat]
  have hg : ¬ (size_t_of_int (5 + 1) ≥ twelve_bins.size) := by
    norm_num [twelve_bins, Spectrum.size, size_t_of_int, Int.toNat]
  have hmin : ieee754.to_float (ieee754.to_float ((5 : ℤ) : ℚ) /
      ieee754.to_float ((11 : ℕ) : ℚ)) = 15252015 / 33554432 := by
    norm_num [to_float_eleven, to_float_five, to_float_five_elevenths]
  have hmax : ieee754.to_float (ieee754.to_float ((1 + 5 : ℤ) : ℚ) /
      ieee754.to_float ((11 : ℕ) : ℚ)) = 9151209 / 16777216 := by
    norm_num [to_float_eleven, to_float_six, to_float_six_elevenths]
  have hfrac : ieee754.to_float (ieee754.to_float (7626007 / 16777216 - 15252015 / 33554432) /
      ieee754.to_float (9151209 / 16777216 - 15252015 / 33554432)) = -(11 / 33554432) := by
    norm_num [to_float_f_sub_min, to_float_max_sub_min, to_float_frac]
  have hamp : ieee754.to_float (ieee754.to_float (1 * ieee754.to_float (1 - -(11 / 33554432)))
      + ieee754.to_float (0 * -(11 / 33554432))) = 8388611 / 8388608 := by
    norm_num [to_float_one_sub_frac, to_float_amplitude, to_float_zero]
  unfold ieee754.call_float
  rw [if_neg (by norm_num), if_neg (by norm_num), if_neg (by norm_num), if_neg (by norm_num)]
  simp only [hm, hi, hmin, hmax, hfrac, if_neg hg, ha, hb]
  rw [except_bind_ok, except_bind_ok, hamp]
  rfl

/-! ## Divergences of the two queries over machine arithmetic -/

/-- C21: over machine arithmetic the overlap of a boundary bin can be empty.  Seven bins and
`r = [0, 5.0f/6.0f]` satisfy `0 <= r.min < r.max <= 1`; the `float` product `r.max * 6` is
`5`, so `max_i = 5`; the span of bin 5 starts at the `float` `5*delta`, above `r.max`; its
intersection with `r` is empty, `bin_average(max_i)` dereferences it and the query leaves
defined behaviour. -/
theorem ieee754_boundary_overlap_empty :
    ieee754.to_float (5 / 6) = 13981013 / 16777216 ∧
    (0 : ℚ) < 13981013 / 16777216 ∧ (13981013 / 16777216 : ℚ) ≤ 1 ∧
    int_of_float (ieee754.to_float (13981013 / 16777216 *
      ieee754.to_float (size_minus_1 seven_bins : ℚ))) = 5 ∧
    intersection
      ⟨ieee754.to_float (ieee754.to_float ((5 : ℤ) : ℚ) *
          ieee754.to_float (1 / ieee754.to_float (size_minus_1 seven_bins : ℚ))),
       ieee754.to_float (ieee754.to_float (ieee754.to_float ((5 : ℤ) : ℚ) *
          ieee754.to_float (1 / ieee754.to_float (size_minus_1 seven_bins : ℚ))) +
          ieee754.to_float (1 / ieee754.to_float (size_minus_1 seven_bins : ℚ)))⟩
      ⟨0, 13981013 / 16777216⟩ = none ∧
    ieee754.bin_average (LinearInterpolator.mk seven_bins)
      (ieee754.to_float (1 / ieee754.to_float (size_minus_1 seven_bins : ℚ)))
      ⟨0, 13981013 / 16777216⟩ 5 = .error .undefined_behaviour ∧
    ieee754.call_Interval (LinearInterpolator.mk seven_bins) ⟨0, 13981013 / 16777216⟩ =
      .error .undefined_behaviour := by
  have hm : size_minus_1 seven_bins = 6 := by
    rw [size_minus_1_eq _ (by decide)]
    rfl
  refine ⟨to_float_five_sixths, by norm_num, by norm_num, ?_, ?_, ?_, ?_⟩
  · rw [hm]
    simp only [Nat.cast_ofNat, to_float_six, to_float_five_sixths_mul_six]
    norm_num [int_of_float]
  · rw [hm]
    simp only [Nat.cast_ofNat, Int.cast_ofNat, to_float_six, to_float_one_sixth, to_float_five,
      to_float_five_mul_delta]
    exact intersection_above_five_sixths _ _ rfl
  · rw [hm]
    simp only [Nat.cast_ofNat, to_float_six, to_float_one_sixth]
    exact ieee754_bin_average_five seven_bins _ rfl
  · exact ieee754_call_Interval_seven_bins seven_bins rfl _ (by norm_num) (by norm_num) rfl

/-- C23: over machine arithmetic `weight_total` is not always reached.  On seven bins and
`r = [0.25, 5.0f/6.0f]`, with `0 <= r.min < r.max < 1`, the query leaves defined behaviour in
`bin_average(max_i)` (an empty overlap is dereferenced) before the weights are summed and
divided by. -/
theorem ieee754_weight_total_not_reached :
    (0 : ℚ) ≤ 1 / 4 ∧ (1 / 4 : ℚ) < 13981013 / 16777216 ∧ (13981013 / 16777216 : ℚ) < 1 ∧
    ieee754.call_Interval (LinearInterpolator.mk seven_bins) ⟨1 / 4, 13981013 / 16777216⟩ =
      .error .undefined_behaviour :=
  ⟨by norm_num, by norm_num, by norm_num,
    ieee754_call_Interval_seven_bins seven_bins rfl _ (by norm_num) (by norm_num) rfl⟩

/-- C24: over machine arithmetic the additivity relation has no samples to relate.  On seven
bins with `a = 0`, `b = 0.5`, `c = 5.0f/6.0f` (`0 <= a < b < c < 1`) the queries over `[b,c]`
and `[a,c]` leave defined behaviour in `bin_average(max_i)`. -/
theorem ieee754_additivity_not_reached :
    (0 : ℚ) < 1 / 2 ∧ (1 / 2 : ℚ) < 13981013 / 16777216 ∧ (13981013 / 16777216 : ℚ) < 1 ∧
    ieee754.call_Interval (LinearInterpolator.mk seven_bins) ⟨1 / 2, 13981013 / 16777216⟩ =
      .error .undefined_behaviour ∧
    ieee754.call_Interval (LinearInterpolator.mk seven_bins) ⟨0, 13981013 / 16777216⟩ =
      .error .undefined_behaviour :=
  ⟨by norm_num, by norm_num, by norm_num,
    ieee754_call_Interval_seven_bins seven_bins rfl _ (by norm_num) (by norm_num) rfl,
    ieee754_call_Interval_seven_bins seven_bins rfl _ (by norm_num) (by norm_num) rfl⟩

/-- C25: over machine arithmetic an interval inside a single bin can fail.  On seven bins,
`k = 4` and `r = [0.7f, 5.0f/6.0f]` satisfy `k/(N-1) <= r.min < r.max < (k+1)/(N-1)`, yet
`max_i = 5` differs from `min_i` and the query leaves defined behaviour in
`bin_average(max_i)` instead of returning the sample of the midpoint. -/
theorem ieee754_single_bin_interval_undefined :
    ieee754.to_float (7 / 10) = 11744051 / 16777216 ∧
    (4 : ℚ) / ((seven_bins.size - 1 : ℕ) : ℚ) ≤ 11744051 / 16777216 ∧
    (11744051 / 16777216 : ℚ) < 13981013 / 16777216 ∧
    (13981013 / 16777216 : ℚ) < ((4 : ℚ) + 1) / ((seven_bins.size - 1 : ℕ) : ℚ) ∧
    ieee754.call_Interval (LinearInterpolator.mk seven_bins)
      ⟨11744051 / 16777216, 13981013 / 16777216⟩ = .error .undefined_behaviour := by
  have hs : seven_bins.size = 7 := rfl
  refine ⟨to_float_seven_tenths, ?_, by norm_num, ?_,
    ieee754_call_Interval_seven_bins seven_bins rfl _ (by norm_num) (by norm_num) rfl⟩
  · rw [hs]; norm_num
  · rw [hs]; norm_num

/-- C27: over machine arithmetic the range bound fails in both queries.  On seven bins the
interval query over `[0.125, 5.0f/6.0f]` leaves defined behaviour in `bin_average(max_i)`;
on twelve bins, all `0` except bin 5 which is `1`, the point query at the `float`
`f = 7626007/2^24` returns the amplitude `1 + 3*2^-23`, above every bin. -/
theorem ieee754_range_bound_fails :
    ((0 : ℚ) ≤ 1 / 8 ∧ (1 / 8 : ℚ) ≤ 13981013 / 16777216 ∧ (13981013 / 16777216 : ℚ) < 1 ∧
      ieee754.call_Interval (LinearInterpolator.mk seven_bins) ⟨1 / 8, 13981013 / 16777216⟩ =
        .error .undefined_behaviour) ∧
    (ieee754.to_float (7626007 / 16777216) = 7626007 / 16777216 ∧
      (0 : ℚ) ≤ 7626007 / 16777216 ∧ (7626007 / 16777216 : ℚ) ≤ 1 ∧
      ∃ x, ieee754.call_float (LinearInterpolator.mk twelve_bins) (7626007 / 16777216) = .ok x ∧
        x.amplitude = 8388611 / 8388608 ∧ ∀ a ∈ twelve_bins.bins_, a < x.amplitude) := by
  refine ⟨⟨by norm_num, by norm_num, by norm_num,
    ieee754_call_Interval_seven_bins seven_bins rfl _ (by norm_num) (by norm_num) rfl⟩,
    to_float_f, by norm_num, by norm_num, _, ieee754_call_float_twelve_bins, rfl, ?_⟩
  intro a ha
  simp only [twelve_bins, List.mem_cons, List.mem_singleton, List.not_mem_nil, or_false] at ha
  rcases ha with h | h | h | h | h | h | h | h | h | h | h | h <;> rw [h] <;> norm_num

/-- C28: over machine arithmetic the linearity relation has no samples to relate.  With
`S = [1..7]`, `T = [7..1]` (seven bins each, the same wavelengths), `alpha = 2`, `beta = 3`
and `U` the spectrum with bins `alpha*S[i] + beta*T[i]`, the interval query over
`[0.75, 5.0f/6.0f]` leaves defined behaviour in `bin_average(max_i)` on all three. -/
theorem ieee754_linearity_not_reached :
    seven_bins_combined.bins_ =
      List.zipWith (fun a b => 2 * a + 3 * b) seven_bins.bins_ seven_bins_reversed.bins_ ∧
    (0 : ℚ) ≤ 3 / 4 ∧ (3 / 4 : ℚ) ≤ 13981013 / 16777216 ∧ (13981013 / 16777216 : ℚ) < 1 ∧
    ieee754.call_Interval (LinearInterpolator.mk seven_bins) ⟨3 / 4, 13981013 / 16777216⟩ =
      .error .undefined_behaviour ∧
    ieee754.call_Interval (LinearInterpolator.mk seven_bins_reversed)
      ⟨3 / 4, 13981013 / 16777216⟩ = .error .undefined_behaviour ∧
    ieee754.call_Interval (LinearInterpolator.mk seven_bins_combined)
      ⟨3 / 4, 13981013 / 16777216⟩ = .error .undefined_behaviour := by
  refine ⟨by norm_num [seven_bins_combined, seven_bins, seven_bins_reversed], by norm_num,
    by norm_num, by norm_num,
    ieee754_call_Interval_seven_bins seven_bins rfl _ (by norm_num) (by norm_num) rfl,
    ieee754_call_Interval_seven_bins seven_bins_reversed rfl _ (by norm_num) (by norm_num) rfl,
    ieee754_call_Interval_seven_bins seven_bins_combined rfl _ (by norm_num) (by norm_num) rfl⟩

end future
end tukan

namespace gaudy

/-! ## The arithmetic operators of gaudy::RGB -/

/-- C31: for all `RGB` values `a`, `b` and every scalar `s`, over exact arithmetic, each of
`+`, `-`, `*`, `/` acts componentwise; the scalar overloads are the broadcasts
`a op RGB(s,s,s)` and `RGB(s,s,s) op a`; and each compound assignment `a op= b`, `a op= s`
leaves `a` equal to `a op b`, `a op s`. -/
theorem RGB_operators_componentwise (a b : RGB) (s : ℚ) :
    -- componentwise
    ((operator_add_RGB_RGB a b).r = a.r + b.r ∧ (operator_add_RGB_RGB a b).g = a.g + b.g ∧
      (operator_add_RGB_RGB a b).b = a.b + b.b) ∧
    ((operator_sub_RGB_RGB a b).r = a.r - b.r ∧ (operator_sub_RGB_RGB a b).g = a.g - b.g ∧
      (operator_sub_RGB_RGB a b).b = a.b - b.b) ∧
    ((operator_mul_RGB_RGB a b).r = a.r * b.r ∧ (operator_mul_RGB_RGB a b).g = a.g * b.g ∧
      (operator_mul_RGB_RGB a b).b = a.b * b.b) ∧
    ((operator_div_RGB_RGB a b).r = a.r / b.r ∧ (operator_div_RGB_RGB a b).g = a.g / b.g ∧
      (operator_div_RGB_RGB a b).b = a.b / b.b) ∧
    -- the scalar overloads broadcast the scalar
    (operator_add_RGB_float a s = operator_add_RGB_RGB a ⟨s, s, s⟩ ∧
      operator_add_float_RGB s a = operator_add_RGB_RGB ⟨s, s, s⟩ a) ∧
    (operator_sub_RGB_float a s = operator_sub_RGB_RGB a ⟨s, s, s⟩ ∧
      operator_sub_float_RGB s a = operator_sub_RGB_RGB ⟨s, s, s⟩ a) ∧
    (operator_mul_RGB_float a s = operator_mul_RGB_RGB a ⟨s, s, s⟩ ∧
      operator_mul_float_RGB s a = operator_mul_RGB_RGB ⟨s, s, s⟩ a) ∧
    (operator_div_RGB_float a s = operator_div_RGB_RGB a ⟨s, s, s⟩ ∧
      operator_div_float_RGB s a = operator_div_RGB_RGB ⟨s, s, s⟩ a) ∧
    -- the compound assignments
    (a.operator_add_assign_RGB b = operator_add_RGB_RGB a b ∧
      a.operator_add_assign_float s = operator_add_RGB_float a s) ∧
    (a.operator_sub_assign_RGB b = operator_sub_RGB_RGB a b ∧
      a.operator_sub_assign_float s = operator_sub_RGB_float a s) ∧
    (a.operator_mul_assign_RGB b = operator_mul_RGB_RGB a b ∧
      a.operator_mul_assign_float s = operator_mul_RGB_float a s) ∧
    (a.operator_div_assign_RGB b = operator_div_RGB_RGB a b ∧
      a.operator_div_assign_float s = operator_div_RGB_float a s) := by
  refine ⟨⟨rfl, rfl, rfl⟩, ⟨rfl, rfl, rfl⟩, ⟨rfl, rfl, rfl⟩, ⟨rfl, rfl, rfl⟩, ?_, ?_, ?_, ?_, ?_⟩
  · exact ⟨rfl, rfl⟩
  · exact ⟨rfl, rfl⟩
  · exact ⟨rfl, rfl⟩
  · exact ⟨rfl, rfl⟩
  · cases a
    cases b
    simp only [RGB.operator_add_assign_RGB, RGB.operator_sub_assign_RGB,
      RGB.operator_mul_assign_RGB, RGB.operator_div_assign_RGB, RGB.operator_add_assign_float,
      RGB.operator_sub_assign_float, RGB.operator_mul_assign_float,
      RGB.operator_div_assign_float, operator_add_RGB_RGB, operator_sub_RGB_RGB,
      operator_mul_RGB_RGB, operator_div_RGB_RGB, operator_add_RGB_float,
      operator_sub_RGB_float, operator_mul_RGB_float, operator_div_RGB_float, and_self]

end gaudy
